import Mathlib

/-!
Shallow embedding of the fast-plist parser (`src/main.ts`) and proofs about it.

The parser is a single forward sweep over the input: scanner primitives own a
position, a tag reader recognises one XML-ish tag at a time, and a state machine
(root / dictionary / array, with a frame stack) folds recognised tags into a
value tree.  Every definition below is translated from the TypeScript source;
JavaScript strings are modelled as lists of characters, JavaScript object /
array mutation is modelled by an explicit zipper (frames record the parent
container and re-attach the finished child on close, which yields the same
trees as the aliasing mutation in the source), and thrown `Error`s are modelled
with `Except`.
-/

namespace FastPlist

/-- Characters of the input document. JavaScript strings are sequences of UTF-16
code units; every input in the claims lies in the Basic Multilingual Plane, where
code units and code points agree, so a list of characters is a faithful model. -/
abbrev Content := List Char

/-- Model of `content.charCodeAt(i)`. JavaScript yields NaN out of range, which
compares unequal to every character code the parser tests for; the null character
stands in for that out-of-range value (the parser never compares against NUL). -/
def charAt (c : Content) (i : Nat) : Char := c.getD i (Char.ofNat 0)

/-- Whitespace recognised by `skipWhitespace` in the source (`ChCode.SPACE`,
`TAB`, `CARRIAGE_RETURN`, `LINE_FEED`).  The parser's own loop checks exactly
these four character codes. -/
def isWs (ch : Char) : Bool := ch == ' ' || ch == '\t' || ch == '\r' || ch == '\n'

/-- JavaScript `StrWhiteSpace`: the WhiteSpace production (tab, vertical tab,
form feed, space, no-break space, zero-width no-break space, and the Unicode
space-separator category Zs: U+1680, U+2000–U+200A, U+202F, U+205F, U+3000)
together with the line terminators LF, CR, LS, PS.  This is the set stripped
by `parseInt`, `parseFloat` and `String.prototype.trim`, which is wider than
the four characters the parser's own `skipWhitespace` checks for. -/
def isJsStrWs (ch : Char) : Bool :=
  ch == '\t' || ch.toNat == 11 || ch.toNat == 12 || ch == ' ' || ch.toNat == 160 ||
    ch.toNat == 65279 || ch == '\n' || ch == '\r' || ch.toNat == 8232 ||
    ch.toNat == 8233 || ch.toNat == 5760 ||
    (decide (8192 ≤ ch.toNat) && decide (ch.toNat ≤ 8202)) || ch.toNat == 8239 ||
    ch.toNat == 8287 || ch.toNat == 12288

/-- Check that `pat` is an initial segment of `s`; the matching step of the
`String.prototype.indexOf` scan and of the `/^plist/` test. -/
def leadsWith : Content → Content → Bool
  | [], _ => true
  | _ :: _, [] => false
  | a :: pa, b :: sb => a == b && leadsWith pa sb

/-- Index of the first occurrence of `pat` in `s` (relative to the front of `s`),
if any: the scan performed by `String.prototype.indexOf`. -/
def findOcc (pat : Content) : Content → Option Nat
  | [] => if leadsWith pat [] then some 0 else none
  | b :: sb => if leadsWith pat (b :: sb) then some 0 else (findOcc pat sb).map (· + 1)

/-- Model of `content.indexOf(str, start)`: absolute index of the first
occurrence of `pat` at or after `start`, if any. -/
def indexOfFrom (c pat : Content) (start : Nat) : Option Nat :=
  (findOcc pat (c.drop start)).map (· + start)

/-- Scanner position. `pos` is the character offset; `line` and `char` are
maintained only when location tracking is enabled (`locationKeyName !== null` in
the source) and are never read back by the parser itself. -/
structure Position where
  pos : Nat
  line : Nat
  char : Nat

/-- Tracking branch of `advancePosBy`: advance one character at a time, bumping
the line counter across line feeds. -/
def advancePosByTrack (c : Content) : Position → Nat → Position
  | p, 0 => p
  | p, n + 1 =>
    advancePosByTrack c
      (if charAt c p.pos == '\n' then ⟨p.pos + 1, p.line + 1, 0⟩
       else ⟨p.pos + 1, p.line, p.char + 1⟩) n

/-- Model of `advancePosBy(by)`; `t` is whether location tracking is enabled. -/
def advancePosBy (t : Bool) (c : Content) (p : Position) (n : Nat) : Position :=
  if t then advancePosByTrack c p n else { p with pos := p.pos + n }

/-- Model of `advancePosTo(to)`. -/
def advancePosTo (t : Bool) (c : Content) (p : Position) (toPos : Nat) : Position :=
  if t then advancePosBy t c p (toPos - p.pos) else { p with pos := toPos }

/-- Body of the `skipWhitespace` loop; the fuel argument bounds the number of
iterations (the caller passes `c.length - p.pos`, which is always enough since
each iteration advances the position by one). -/
def skipWhitespaceAux (t : Bool) (c : Content) : Nat → Position → Position
  | 0, p => p
  | fuel + 1, p =>
    if p.pos < c.length then
      if isWs (charAt c p.pos) then skipWhitespaceAux t c fuel (advancePosBy t c p 1) else p
    else p

/-- Model of `skipWhitespace()`. -/
def skipWhitespace (t : Bool) (c : Content) (p : Position) : Position :=
  skipWhitespaceAux t c (c.length - p.pos) p

/-- Model of `advanceIfStartsWith(str)`: returns whether the text at the current
position begins with `str` (the source compares `content.substr(pos, str.length)`
with `str`), advancing past it on success. -/
def advanceIfStartsWith (t : Bool) (c : Content) (str : Content) (p : Position) :
    Bool × Position :=
  if (c.drop p.pos).take str.length = str then (true, advancePosBy t c p str.length)
  else (false, p)

/-- Model of `advanceUntil(str)`: position moves to just past the first
occurrence of the delimiter, or to end of input when it never occurs. -/
def advanceUntil (t : Bool) (c : Content) (pat : Content) (p : Position) : Position :=
  match indexOfFrom c pat p.pos with
  | some j => advancePosTo t c p (j + pat.length)
  | none => advancePosTo t c p c.length

/-- Model of `captureUntil(str)`: like `advanceUntil` but also returns the text
strictly between the starting position and the delimiter (`content.substring`),
or the remaining text to end of input when the delimiter never occurs
(`content.substr(pos)`). -/
def captureUntil (t : Bool) (c : Content) (pat : Content) (p : Position) :
    Content × Position :=
  match indexOfFrom c pat p.pos with
  | some j => ((c.take j).drop p.pos, advancePosTo t c p (j + pat.length))
  | none => (c.drop p.pos, advancePosTo t c p c.length)

/-- Numeric value of a run of decimal digits (the `parseInt(m0, 10)` applied to
a regex capture consisting of digits only). -/
def decDigitsVal (ds : Content) : Nat := ds.foldl (fun a ch => 10 * a + (ch.toNat - 48)) 0

/-- Value of one lowercase hexadecimal digit. -/
def hexDigitVal (ch : Char) : Nat := if ch.isDigit then ch.toNat - 48 else ch.toNat - 87

/-- Numeric value of a run of lowercase hexadecimal digits (the
`parseInt(m0, 16)` applied to a capture of the `[0-9a-f]+` class). -/
def hexDigitsVal (ds : Content) : Nat := ds.foldl (fun a ch => 16 * a + hexDigitVal ch) 0

/-- Character class `[0-9a-f]` of the hexadecimal character-reference regex. -/
def isLowerHex (ch : Char) : Bool :=
  ch.isDigit || (decide ('a' ≤ ch) && decide (ch ≤ 'f'))

/-- Message of the exception `String.fromCodePoint` throws on an argument above
0x10FFFF.  The exact text is host-defined (V8 says "Invalid code point ..."); the
model uses one fixed string, which never collides with a `fail` message. -/
def rangeErrorMsg : String := "RangeError: invalid code point"

/-- Marker for the one case the model's strings cannot carry: for an argument in
the surrogate range 0xD800–0xDFFF, `String.fromCodePoint` succeeds and produces
a lone UTF-16 surrogate, a string with no counterpart among sequences of
Unicode scalar values.  The model flags that branch with this distinguished
error; no theorem in this file states anything about it, and every theorem
about successful replacement restricts the code point to Unicode scalar
values. -/
def loneSurrogateMsg : String := "lone surrogate: no Unicode scalar representation"

/-- A Unicode scalar value: any code point up to 0x10FFFF outside the surrogate
range 0xD800–0xDFFF.  Exactly the arguments on which `String.fromCodePoint`
returns a representable one-character string. -/
def isScalarCP (n : Nat) : Bool :=
  decide (n < 55296) || (decide (57343 < n) && decide (n ≤ 1114111))

/-- Model of `String.fromCodePoint(n)` for a single code point: an argument
above 0x10FFFF makes JavaScript throw a RangeError (which aborts the whole
parse), modelled by `rangeErrorMsg`; an argument in the surrogate range yields
a lone UTF-16 surrogate, unrepresentable here and flagged by
`loneSurrogateMsg` (see its docstring); every other argument is a Unicode
scalar value and maps exactly to the corresponding character. -/
def fromCodePoint (n : Nat) : Except String Content :=
  if 1114111 < n then .error rangeErrorMsg
  else if 55296 ≤ n ∧ n ≤ 57343 then .error loneSurrogateMsg
  else .ok [Char.ofNat n]

/-- Scan of `str.replace(/&#([0-9]+);/g, ...)`: at each position, a match needs
`&#`, one or more decimal digits (greedy, which for this pattern is the maximal
digit run), and `;`; matched references are replaced by the referenced code
point, everything else is copied, and replacement text is not rescanned.
Matches are visited left to right, so a RangeError thrown by the replacement
callback at the first out-of-range reference aborts the whole replace (and the
parse): the scan is `Except`-valued and short-circuits.  The fuel bounds the
scan (the caller passes the length of the string, which is enough since every
step consumes at least one character). -/
def replaceDecAux : Nat → Content → Except String Content
  | _, [] => .ok []
  | 0, s => .ok s
  | fuel + 1, ch :: rest =>
    if ch = '&' then
      match rest with
      | '#' :: rest2 =>
        (match rest2.dropWhile Char.isDigit with
         | ';' :: rest3 =>
           if (rest2.takeWhile Char.isDigit).isEmpty then
             (replaceDecAux fuel rest).map (fun r => ch :: r)
           else
             match fromCodePoint (decDigitsVal (rest2.takeWhile Char.isDigit)) with
             | .error m => .error m
             | .ok cp => (replaceDecAux fuel rest3).map (fun r => cp ++ r)
         | _ => (replaceDecAux fuel rest).map (fun r => ch :: r))
      | _ => (replaceDecAux fuel rest).map (fun r => ch :: r)
    else (replaceDecAux fuel rest).map (fun r => ch :: r)

/-- First replace of `escapeVal`: decimal numeric character references. -/
def replaceDec (s : Content) : Except String Content := replaceDecAux s.length s

/-- Scan of `str.replace(/&#x([0-9a-f]+);/g, ...)`: same shape as the decimal
scan, with an `x` after `&#` and lowercase hexadecimal digits. -/
def replaceHexAux : Nat → Content → Except String Content
  | _, [] => .ok []
  | 0, s => .ok s
  | fuel + 1, ch :: rest =>
    if ch = '&' then
      match rest with
      | '#' :: 'x' :: rest2 =>
        (match rest2.dropWhile isLowerHex with
         | ';' :: rest3 =>
           if (rest2.takeWhile isLowerHex).isEmpty then
             (replaceHexAux fuel rest).map (fun r => ch :: r)
           else
             match fromCodePoint (hexDigitsVal (rest2.takeWhile isLowerHex)) with
             | .error m => .error m
             | .ok cp => (replaceHexAux fuel rest3).map (fun r => cp ++ r)
         | _ => (replaceHexAux fuel rest).map (fun r => ch :: r))
      | _ => (replaceHexAux fuel rest).map (fun r => ch :: r)
    else (replaceHexAux fuel rest).map (fun r => ch :: r)

/-- Second replace of `escapeVal`: hexadecimal numeric character references
(lowercase digits only, exactly as the source regex). -/
def replaceHex (s : Content) : Except String Content := replaceHexAux s.length s

/-- Scan of `str.replace(/&amp;|&lt;|&gt;|&quot;|&apos;/g, ...)`: the five named
entities, alternation tried in source order at each position. -/
def replaceEntAux : Nat → Content → Content
  | _, [] => []
  | 0, s => s
  | fuel + 1, ch :: rest =>
    if ch = '&' then
      if leadsWith (['a', 'm', 'p', ';']) rest then
        '&' :: replaceEntAux fuel (rest.drop 4)
      else if leadsWith (['l', 't', ';']) rest then
        '<' :: replaceEntAux fuel (rest.drop 3)
      else if leadsWith (['g', 't', ';']) rest then
        '>' :: replaceEntAux fuel (rest.drop 3)
      else if leadsWith (['q', 'u', 'o', 't', ';']) rest then
        Char.ofNat 34 :: replaceEntAux fuel (rest.drop 5)
      else if leadsWith (['a', 'p', 'o', 's', ';']) rest then
        Char.ofNat 39 :: replaceEntAux fuel (rest.drop 5)
      else ch :: replaceEntAux fuel rest
    else ch :: replaceEntAux fuel rest

/-- Third replace of `escapeVal`: the five standard named entities. -/
def replaceEnt (s : Content) : Content := replaceEntAux s.length s

/-- Model of `escapeVal`: the three global replaces applied in source order
(decimal references, then hexadecimal references, then named entities), each
operating on the output of the previous one; an exception thrown by an earlier
replace skips the later ones and propagates.  The named-entity replace cannot
throw, so its scan stays total. -/
def escapeVal (s : Content) : Except String Content :=
  match replaceDec s with
  | .error m => .error m
  | .ok s1 =>
    match replaceHex s1 with
    | .error m => .error m
    | .ok s2 => .ok (replaceEnt s2)

/-- Model of `String.prototype.trim`: strips `StrWhiteSpace` characters (see
`isJsStrWs`) from both ends. -/
def jsTrim (s : Content) : Content :=
  ((s.dropWhile isJsStrWs).reverse.dropWhile isJsStrWs).reverse

/-- Model of `parseInt(text, 10)`: optional leading `StrWhiteSpace`, optional
sign, then a maximal nonempty run of decimal digits; `none` models NaN.  The
conversion is kept exact: JavaScript rounds the mathematical integer to the
nearest IEEE double, which is the identity whenever its magnitude is below
2^53, so the theorems below equate stored values only under that bound and
assert plain success beyond it. -/
def jsParseInt10 (s : Content) : Option Int :=
  let s1 := s.dropWhile isJsStrWs
  let sp : Int × Content :=
    match s1 with
    | ch :: r => if ch = '-' then (-1, r) else if ch = '+' then (1, r) else (1, s1)
    | [] => (1, s1)
  let ds := sp.2.takeWhile Char.isDigit
  if ds.isEmpty then none else some (sp.1 * (decDigitsVal ds : Int))

/-- A JavaScript number as `parseFloat` can produce one: a finite value or an
infinity (from the `Infinity` literal; `parseFloat` itself never returns NaN
into the parser, since the source checks `isNaN` first).  The finite case keeps
the exact decimal rational: JavaScript rounds it to the nearest IEEE double
(overflowing to an infinity beyond ~1.8e308), a value-level simplification that
never changes whether `parseFloat` returns NaN, so the error/success boundary
below is exact while stored finite values are asserted only existentially. -/
inductive JSNum where
  | finite : Rat → JSNum
  | posInf : JSNum
  | negInf : JSNum
deriving DecidableEq

/-- Model of `parseFloat(text)`: optional leading `StrWhiteSpace`, optional
sign, then either the literal `Infinity` or a mantissa that is `digits`,
`digits.digits?` or `.digits` with an optional exponent part; the longest valid
prefix is converted and `none` models NaN. -/
def jsParseFloat (s : Content) : Option JSNum :=
  let s1 := s.dropWhile isJsStrWs
  let isNeg : Bool := match s1 with | ch :: _ => ch == '-' | [] => false
  let s2 := match s1 with
    | ch :: r => if ch = '-' || ch = '+' then r else s1
    | [] => s1
  if leadsWith ("Infinity".toList) s2 then
    some (if isNeg then .negInf else .posInf)
  else
    let ip := s2.takeWhile Char.isDigit
    let r1 := s2.dropWhile Char.isDigit
    let frp : Content × Content :=
      match r1 with
      | ch :: r => if ch = '.' then (r.takeWhile Char.isDigit, r.dropWhile Char.isDigit)
          else ([], r1)
      | [] => ([], r1)
    if ip.isEmpty && frp.1.isEmpty then none
    else
      let sign : Rat := if isNeg then -1 else 1
      let mant : Rat := (decDigitsVal ip : Rat) + (decDigitsVal frp.1 : Rat) / (10 : Rat) ^ frp.1.length
      let eVal : Int :=
        match frp.2 with
        | ch :: r =>
          if ch = 'e' || ch = 'E' then
            match r with
            | ch2 :: r3 =>
              if ch2 = '-' then
                (match r3.takeWhile Char.isDigit with | [] => 0 | ds => -(decDigitsVal ds : Int))
              else if ch2 = '+' then
                (match r3.takeWhile Char.isDigit with | [] => 0 | ds => (decDigitsVal ds : Int))
              else
                (match r.takeWhile Char.isDigit with | [] => 0 | ds => (decDigitsVal ds : Int))
            | [] => 0
          else 0
        | [] => 0
      some (.finite (sign * mant * (10 : Rat) ^ eVal))

/-- Result values of the parser (`any` in the source): strings (also produced
by `data` tags), integers, reals, booleans, dates (the source wraps the decoded
text in `new Date(...)`; the model keeps the text that was wrapped), mappings
with insertion-ordered keys, and sequences.  (JavaScript additionally reorders
integer-like keys when enumerating objects; no claim involves such keys.) -/
inductive JSVal where
  | vstr : String → JSVal
  | vint : Int → JSVal
  | vreal : JSNum → JSVal
  | vbool : Bool → JSVal
  | vdate : String → JSVal
  | vdict : List (String × JSVal) → JSVal
  | varr : List JSVal → JSVal

/-- Model of JavaScript property assignment `obj[key] = v` on an
insertion-ordered object: replace in place when the key exists, else append. -/
def objSet (l : List (String × JSVal)) (k : String) (v : JSVal) : List (String × JSVal) :=
  match l with
  | [] => [(k, v)]
  | (k', v') :: rest => if k' = k then (k', v) :: rest else (k', v') :: objSet rest k v

/-- The mutable `cur` of the source together with the `state` enum, which is
always the kind of `cur`: the root slot (holding `null` or the single top-level
value), an open dictionary, or an open array. -/
inductive Cur where
  | rootC : Option JSVal → Cur
  | dictC : List (String × JSVal) → Cur
  | arrC : List JSVal → Cur

/-- One entry of the parallel `stateStack`/`objStack` pair.  In the source the
child container is attached to the parent at *enter* time through aliasing and
then mutated in place; here the frame remembers the parent contents and the
attachment point, and the finished child is attached at *close* time, which
builds the same tree (the parent is frozen while the child is open). -/
inductive Frame where
  | rootF : Frame
  | dictF : List (String × JSVal) → String → Frame
  | arrF : List JSVal → Frame

/-- Parser state: current container, frame stack, and the single shared
`curKey` variable (the source does not save or restore `curKey` across
`pushState`/`popState`). -/
structure PST where
  cur : Cur
  stack : List Frame
  curKey : Option String

/-- Model of `enterDict` (the `dictState`/`arrState`/root dispatch included). -/
def enterDictOp (st : PST) : Except String PST :=
  match st.cur with
  | .dictC entries =>
    match st.curKey with
    | none => .error ("missing <key>")
    | some k => .ok ⟨.dictC [], .dictF entries k :: st.stack, none⟩
  | .arrC items => .ok ⟨.dictC [], .arrF items :: st.stack, st.curKey⟩
  | .rootC _ => .ok ⟨.dictC [], .rootF :: st.stack, st.curKey⟩

/-- Model of `enterArray`. -/
def enterArrayOp (st : PST) : Except String PST :=
  match st.cur with
  | .dictC entries =>
    match st.curKey with
    | none => .error ("missing <key>")
    | some k => .ok ⟨.arrC [], .dictF entries k :: st.stack, none⟩
  | .arrC items => .ok ⟨.arrC [], .arrF items :: st.stack, st.curKey⟩
  | .rootC _ => .ok ⟨.arrC [], .rootF :: st.stack, st.curKey⟩

/-- Finished value of the current container (used when a container closes and
when the driving loop returns `cur` at end of input). -/
def materialize : Cur → Option JSVal
  | .rootC v => v
  | .dictC entries => some (.vdict entries)
  | .arrC items => some (.varr items)

/-- Re-attach a finished child value to its parent frame (`popState` combined
with the attachment that the source performed through aliasing at enter time). -/
def reattachVal (v : JSVal) : Frame → Cur
  | .rootF => .rootC (some v)
  | .dictF entries k => .dictC (objSet entries k v)
  | .arrF items => .arrC (items ++ [v])

/-- Parent container recorded in a frame, without any child attached (only used
to keep `rootCur` total on states the parser cannot reach). -/
def frameCur : Frame → Cur
  | .rootF => .rootC none
  | .dictF entries _ => .dictC entries
  | .arrF items => .arrC items

/-- Specification helper for claim C1: the value sitting in the Root state,
obtained by re-attaching the current container through every open frame (in the
source this is the object at the bottom of `objStack`, which aliasing keeps up
to date).  This is *not* what `parse` returns; `parse` returns `cur` itself. -/
def rootCur : Cur → List Frame → Cur
  | cur, [] => cur
  | cur, f :: fs =>
    rootCur (match materialize cur with | some v => reattachVal v f | none => frameCur f) fs

/-- Model of `popState` as used by `leaveDict` in the dictionary state. -/
def leaveDictOp (st : PST) : Except String PST :=
  match st.cur with
  | .dictC entries =>
    (match st.stack with
     | [] => .error ("IMPOSSIBLE pop of empty stack")
     | f :: rest => .ok ⟨reattachVal (.vdict entries) f, rest, st.curKey⟩)
  | .arrC _ => .error ("unexpected </dict>")
  | .rootC _ => .error ("unexpected </dict>")

/-- Model of `leaveArray`. -/
def leaveArrayOp (st : PST) : Except String PST :=
  match st.cur with
  | .arrC items =>
    (match st.stack with
     | [] => .error ("IMPOSSIBLE pop of empty stack")
     | f :: rest => .ok ⟨reattachVal (.varr items) f, rest, st.curKey⟩)
  | .dictC _ => .error ("unexpected </array>")
  | .rootC _ => .error ("unexpected </array>")

/-- Model of `acceptKey`. -/
def acceptKeyOp (v : String) (st : PST) : Except String PST :=
  match st.cur with
  | .dictC _ =>
    match st.curKey with
    | some _ => .error ("too many <key>")
    | none => .ok ⟨st.cur, st.stack, some v⟩
  | .arrC _ => .error ("unexpected <key>")
  | .rootC _ => .error ("unexpected <key>")

/-- Shared body of `acceptString`, `acceptReal` (after its NaN check),
`acceptInteger` (after its NaN check), `acceptDate`, `acceptData` and
`acceptBool`, which are six textual copies of the same state dispatch in the
source: in a dictionary the value goes under the pending key (which is then
cleared) and a missing key is fatal; in an array it is appended; at root it
overwrites the current root value. -/
def acceptValue (v : JSVal) (st : PST) : Except String PST :=
  match st.cur with
  | .dictC entries =>
    match st.curKey with
    | none => .error ("missing <key>")
    | some k => .ok ⟨.dictC (objSet entries k v), st.stack, none⟩
  | .arrC items => .ok ⟨.arrC (items ++ [v]), st.stack, st.curKey⟩
  | .rootC _ => .ok ⟨.rootC (some v), st.stack, st.curKey⟩

/-- Parsed shape of one opening tag (`IParsedTag` in the source). -/
structure IParsedTag where
  name : Content
  isClosed : Bool

/-- Tag-name literals used by the driving loop. -/
def dictL : Content := "dict".toList

def arrayL : Content := "array".toList

def keyL : Content := "key".toList

def stringL : Content := "string".toList

def realL : Content := "real".toList

def integerL : Content := "integer".toList

def dateL : Content := "date".toList

def dataL : Content := "data".toList

def trueL : Content := "true".toList

def falseL : Content := "false".toList

def plistL : Content := "plist".toList

def gtL : Content := ['>']

def ltSlashL : Content := ['<', '/']

def qgtL : Content := ['?', '>']

def ddL : Content := ['-', '-']

def ddgtL : Content := ['-', '-', '>']

/-- Model of `parseOpenTag`: capture up to `>`; a trailing `/` marks the tag
self-closing and is stripped; the remaining text is trimmed to give the name.
(`charCodeAt(r.length - 1)` on the empty capture yields NaN in the source,
which is not a slash, exactly as `getLast?` returning `none` here.) -/
def parseOpenTag (t : Bool) (c : Content) (p : Position) : IParsedTag × Position :=
  let rp := captureUntil t c gtL p
  if rp.1.getLast? = some '/' then (⟨jsTrim rp.1.dropLast, true⟩, rp.2)
  else (⟨jsTrim rp.1, false⟩, rp.2)

/-- Model of `parseTagValue`: self-closing tags have empty content; otherwise
the content runs to the next `</`, the matching `>` is consumed, and the raw
text is unescaped.  The unescaping runs after both advances, so a RangeError it
throws escapes with the position already moved past the `>`; the first
component carries that possible exception. -/
def parseTagValue (t : Bool) (c : Content) (tag : IParsedTag) (p : Position) :
    Except String Content × Position :=
  if tag.isClosed then (.ok [], p)
  else
    let vp := captureUntil t c ltSlashL p
    (escapeVal vp.1, advanceUntil t c gtL vp.2)

/-- Leaf tag names, in the order the source's `switch` tests them. -/
def isLeafName (n : Content) : Bool :=
  n == keyL || n == stringL || n == realL || n == integerL || n == dateL ||
    n == dataL || n == trueL || n == falseL

/-- State-machine action of one leaf tag, given its (already unescaped)
content.  `real` and `integer` first run the numeric conversion whose NaN
result is fatal, matching the `isNaN` checks at the top of `acceptReal` and
`acceptInteger`. -/
def leafOp (n : Content) (v : Content) (st : PST) : Except String PST :=
  if n = keyL then acceptKeyOp (String.mk v) st
  else if n = stringL then acceptValue (.vstr (String.mk v)) st
  else if n = realL then
    match jsParseFloat v with
    | none => .error ("cannot parse float")
    | some q => acceptValue (.vreal q) st
  else if n = integerL then
    match jsParseInt10 v with
    | none => .error ("cannot parse integer")
    | some i => acceptValue (.vint i) st
  else if n = dateL then acceptValue (.vdate (String.mk v)) st
  else if n = dataL then acceptValue (.vstr (String.mk v)) st
  else if n = trueL then acceptValue (.vbool true) st
  else acceptValue (.vbool false) st

/-- State-machine action of an opening container tag (`enterDict`/`enterArray`,
immediately followed by the matching leave when the tag is self-closing). -/
def containerOp (n : Content) (isClosed : Bool) (st : PST) : Except String PST :=
  if n = dictL then
    match enterDictOp st with
    | .error m => .error m
    | .ok st1 => if isClosed then leaveDictOp st1 else .ok st1
  else
    match enterArrayOp st with
    | .error m => .error m
    | .ok st1 => if isClosed then leaveArrayOp st1 else .ok st1

/-- A thrown parse error: the offset at which `fail` was called and the message.
(The source embeds the offset and a 50-character excerpt of the input after it
into the `Error` text; both are functions of this offset and the input.) -/
structure Err where
  pos : Nat
  msg : String

/-- The driving `while (pos < len)` loop of `parse`.  Returns the final position
and state on normal exhaustion, a parse error where the source throws, and
`none` only when out of fuel (the caller supplies `length + 1`, which is always
enough since every iteration advances the position by at least one).  An
exception from the unescaper (see `fromCodePoint`) also propagates out of
`parse`; the JavaScript RangeError carries no input offset, and the model reuses
`Err` for it, recording the scan position at the throw — its message never
collides with any `fail` message, so the two kinds of failure stay
distinguishable. -/
def runLoopSt (t : Bool) (c : Content) : Nat → Position → PST →
    Option (Except Err (Position × PST))
  | 0, _, _ => none
  | fuel + 1, p0, st =>
    if p0.pos < c.length then
      let p1 := skipWhitespace t c p0
      if c.length ≤ p1.pos then some (.ok (p1, st))
      else
        let ch := charAt c p1.pos
        let p2 := advancePosBy t c p1 1
        if ch ≠ '<' then some (.error ⟨p2.pos, "expected <"⟩)
        else if c.length ≤ p2.pos then some (.error ⟨p2.pos, "unexpected end of input"⟩)
        else
          let peek := charAt c p2.pos
          if peek = '?' then
            runLoopSt t c fuel (advanceUntil t c qgtL (advancePosBy t c p2 1)) st
          else if peek = '!' then
            let p3 := advancePosBy t c p2 1
            let mp := advanceIfStartsWith t c ddL p3
            if mp.1 then runLoopSt t c fuel (advanceUntil t c ddgtL mp.2) st
            else runLoopSt t c fuel (advanceUntil t c gtL mp.2) st
          else if peek = '/' then
            let p3 := skipWhitespace t c (advancePosBy t c p2 1)
            let mPlist := advanceIfStartsWith t c plistL p3
            if mPlist.1 then runLoopSt t c fuel (advanceUntil t c gtL mPlist.2) st
            else
              let mDict := advanceIfStartsWith t c dictL mPlist.2
              if mDict.1 then
                let p4 := advanceUntil t c gtL mDict.2
                match leaveDictOp st with
                | .error m => some (.error ⟨p4.pos, m⟩)
                | .ok st1 => runLoopSt t c fuel p4 st1
              else
                let mArr := advanceIfStartsWith t c arrayL mDict.2
                if mArr.1 then
                  let p4 := advanceUntil t c gtL mArr.2
                  match leaveArrayOp st with
                  | .error m => some (.error ⟨p4.pos, m⟩)
                  | .ok st1 => runLoopSt t c fuel p4 st1
                else some (.error ⟨mArr.2.pos, "unexpected closed tag"⟩)
          else
            let tp := parseOpenTag t c p2
            if tp.1.name = dictL ∨ tp.1.name = arrayL then
              match containerOp tp.1.name tp.1.isClosed st with
              | .error m => some (.error ⟨tp.2.pos, m⟩)
              | .ok st1 => runLoopSt t c fuel tp.2 st1
            else if isLeafName tp.1.name then
              let vp := parseTagValue t c tp.1 tp.2
              match vp.1 with
              | .error m => some (.error ⟨vp.2.pos, m⟩)
              | .ok v =>
                match leafOp tp.1.name v st with
                | .error m => some (.error ⟨vp.2.pos, m⟩)
                | .ok st1 => runLoopSt t c fuel vp.2 st1
            else if leadsWith plistL tp.1.name then runLoopSt t c fuel tp.2 st
            else some (.error ⟨tp.2.pos, "unexpected opened tag " ++ String.mk tp.1.name⟩)
    else some (.ok (p0, st))

/-- The UTF-8 byte-order mark code point (`ChCode.BOM`). -/
def bomChar : Char := Char.ofNat 65279

/-- Initial position: offset 0, line 1, column 0, skipping a leading BOM. -/
def initPos (c : Content) : Position :=
  if 0 < c.length ∧ charAt c 0 = bomChar then ⟨1, 1, 0⟩ else ⟨0, 1, 0⟩

/-- Initial state: root, empty stacks, no pending key, `cur = null`. -/
def initPST : PST := ⟨.rootC none, [], none⟩

/-- Model of the exported `parse(content, locationKeyName)`: run the driving
loop and return `cur` (`none` models the `null` that an input with no value
produces).  `t` is whether location tracking is enabled. -/
def parseFP (t : Bool) (c : Content) : Option (Except Err (Option JSVal)) :=
  (runLoopSt t c (c.length + 1) (initPos c) initPST).map
    (fun r => r.map (fun x => materialize x.2.cur))

/-- Specification predicate (for the scanner claims): the delimiter `pat`
occurs in `c` starting at index `j`. -/
def occursAt (c pat : Content) (j : Nat) : Prop := leadsWith pat (c.drop j) = true

/-! ### Position bookkeeping lemmas -/

theorem advancePosByTrack_pos (c : Content) :
    ∀ (n : Nat) (p : Position), (advancePosByTrack c p n).pos = p.pos + n := by
  intro n
  induction n with
  | zero => intro p; rfl
  | succ k ih =>
    intro p
    simp only [advancePosByTrack]
    rw [ih]
    split <;> simp <;> omega

theorem advancePosBy_pos (t : Bool) (c : Content) (p : Position) (n : Nat) :
    (advancePosBy t c p n).pos = p.pos + n := by
  unfold advancePosBy
  split
  · exact advancePosByTrack_pos c n p
  · rfl

theorem advancePosTo_pos (t : Bool) (c : Content) (p : Position) {toPos : Nat}
    (h : p.pos ≤ toPos) : (advancePosTo t c p toPos).pos = toPos := by
  unfold advancePosTo
  split
  · rw [advancePosBy_pos]; omega
  · rfl

theorem skipWSAux_pos_eq (t1 t2 : Bool) (c : Content) :
    ∀ (f : Nat) (p1 p2 : Position), p1.pos = p2.pos →
      (skipWhitespaceAux t1 c f p1).pos = (skipWhitespaceAux t2 c f p2).pos := by
  intro f
  induction f with
  | zero => intro p1 p2 h; exact h
  | succ k ih =>
    intro p1 p2 h
    simp only [skipWhitespaceAux]
    rw [h]
    split_ifs
    · exact ih _ _ (by rw [advancePosBy_pos, advancePosBy_pos, h])
    · exact h
    · exact h

theorem skipWSAux_le (t : Bool) (c : Content) :
    ∀ (f : Nat) (p : Position), p.pos ≤ c.length →
      (skipWhitespaceAux t c f p).pos ≤ c.length := by
  intro f
  induction f with
  | zero => intro p h; exact h
  | succ k ih =>
    intro p h
    simp only [skipWhitespaceAux]
    split_ifs with h1 h2
    · exact ih _ (by rw [advancePosBy_pos]; omega)
    · exact h
    · exact h

theorem skipWSAux_ge (t : Bool) (c : Content) :
    ∀ (f : Nat) (p : Position), p.pos ≤ (skipWhitespaceAux t c f p).pos := by
  intro f
  induction f with
  | zero => intro p; exact le_refl _
  | succ k ih =>
    intro p
    simp only [skipWhitespaceAux]
    split_ifs with h1 h2
    · have := ih (advancePosBy t c p 1)
      rw [advancePosBy_pos] at this
      omega
    · exact le_refl _
    · exact le_refl _

theorem skipWS_nonws (t : Bool) (c : Content) (p : Position)
    (h : isWs (charAt c p.pos) = false) : skipWhitespace t c p = p := by
  unfold skipWhitespace
  cases hf : c.length - p.pos with
  | zero => rfl
  | succ k =>
    simp only [skipWhitespaceAux]
    split_ifs with h1 h2
    · rw [h2] at h; cases h
    · rfl
    · rfl

theorem skipWSAux_all_ws (t : Bool) (c : Content) :
    ∀ (f : Nat) (p : Position), p.pos ≤ c.length →
      (∀ i, p.pos ≤ i → i < c.length → isWs (charAt c i) = true) →
      c.length ≤ p.pos + f → (skipWhitespaceAux t c f p).pos = c.length := by
  intro f
  induction f with
  | zero => intro p h1 _ h3; show p.pos = c.length; omega
  | succ k ih =>
    intro p h1 h2 h3
    simp only [skipWhitespaceAux]
    split_ifs with ha hb
    · refine ih _ ?_ ?_ ?_ <;> rw [advancePosBy_pos]
      · omega
      · intro i hi1 hi2; exact h2 i (by omega) hi2
      · omega
    · exact absurd (h2 p.pos (le_refl _) ha) hb
    · show p.pos = c.length; omega

theorem skipWS_all (t : Bool) (c : Content) (p : Position)
    (h1 : p.pos ≤ c.length)
    (h2 : ∀ i, p.pos ≤ i → i < c.length → isWs (charAt c i) = true) :
    (skipWhitespace t c p).pos = c.length :=
  skipWSAux_all_ws t c _ p h1 h2 (by omega)

theorem charAt_mem (c : Content) : ∀ (i : Nat), i < c.length → charAt c i ∈ c := by
  induction c with
  | nil => intro i h; cases h
  | cons a as ih =>
    intro i h
    cases i with
    | zero => exact List.mem_cons_self a as
    | succ j => exact List.mem_cons_of_mem a (ih j (by simpa using h))

theorem runLoopSt_ws_exhaust (t : Bool) (c : Content) (fuel : Nat) (p : Position) (st : PST)
    (hle : p.pos ≤ c.length)
    (hws : ∀ i, p.pos ≤ i → i < c.length → isWs (charAt c i) = true) :
    ∃ q, runLoopSt t c (fuel + 1) p st = some (.ok (q, st)) := by
  by_cases h : p.pos < c.length
  · have hs := skipWS_all t c p hle hws
    refine ⟨skipWhitespace t c p, ?_⟩
    simp only [runLoopSt]
    rw [if_pos h, if_pos (le_of_eq hs.symm)]
  · simp only [runLoopSt]
    rw [if_neg h]
    exact ⟨p, rfl⟩

/-! ### Claim theorems: the state machine (C3, C4, C10, C1) -/

/-- Claim C3: in the InDictionary state, the shared assign-value rule (the
common body of all six leaf acceptors) and both container-opens fail with the
"missing <key>" error when no pending key is set; with a pending key set they
store the value under that key (for containers, at close of the child frame)
and clear the pending key. -/
theorem claim_C3_assign_rule :
    ∀ (entries : List (String × JSVal)) (stk : List Frame) (v : JSVal),
      (acceptValue v ⟨.dictC entries, stk, none⟩ = .error ("missing <key>")
        ∧ enterDictOp ⟨.dictC entries, stk, none⟩ = .error ("missing <key>")
        ∧ enterArrayOp ⟨.dictC entries, stk, none⟩ = .error ("missing <key>"))
      ∧ (∀ k : String,
          acceptValue v ⟨.dictC entries, stk, some k⟩ =
            .ok ⟨.dictC (objSet entries k v), stk, none⟩
          ∧ enterDictOp ⟨.dictC entries, stk, some k⟩ =
            .ok ⟨.dictC [], .dictF entries k :: stk, none⟩
          ∧ enterArrayOp ⟨.dictC entries, stk, some k⟩ =
            .ok ⟨.arrC [], .dictF entries k :: stk, none⟩
          ∧ (∀ (childE : List (String × JSVal)) (ck : Option String),
              leaveDictOp ⟨.dictC childE, .dictF entries k :: stk, ck⟩ =
                .ok ⟨.dictC (objSet entries k (.vdict childE)), stk, ck⟩)) :=
  fun _ _ _ => ⟨⟨rfl, rfl, rfl⟩, fun _ => ⟨rfl, rfl, rfl, fun _ _ => rfl⟩⟩

/-- Claim C4: the key acceptor fails exactly when the state is not InDictionary
(error "unexpected <key>", both at root and inside an array) or a pending key
already exists (error "too many <key>"); otherwise it records the decoded text
as the pending key and succeeds. -/
theorem claim_C4_key_handling :
    ∀ (st : PST) (v : String),
      ((∃ m, acceptKeyOp v st = .error m) ↔
          ((∀ e, st.cur ≠ Cur.dictC e) ∨ st.curKey ≠ none))
      ∧ ((∀ e, st.cur ≠ Cur.dictC e) → acceptKeyOp v st = .error ("unexpected <key>"))
      ∧ (∀ e, st.cur = Cur.dictC e → st.curKey ≠ none →
          acceptKeyOp v st = .error ("too many <key>"))
      ∧ (∀ e, st.cur = Cur.dictC e → st.curKey = none →
          acceptKeyOp v st = .ok ⟨st.cur, st.stack, some v⟩) := by
  rintro ⟨cur, stk, key⟩ v
  cases cur <;> cases key <;> simp [acceptKeyOp]

/-- Witness for `claim_C4_key_handling` at a concrete dictionary state with no
pending key: the key is recorded. -/
theorem claim_C4_key_handling_witness :
    acceptKeyOp ("k") ⟨.dictC [], [], none⟩ = .ok ⟨.dictC [], [], some ("k")⟩ :=
  (claim_C4_key_handling ⟨.dictC [], [], none⟩ ("k")).2.2.2 [] rfl rfl

/-- Claim C10: a value arriving in the Root state unconditionally overwrites
the root slot, so a document with several consecutive top-level values parses
without error and yields the last one. -/
theorem claim_C10_last_root_value_wins :
    (∀ (o : Option JSVal) (stk : List Frame) (k : Option String) (v : JSVal),
        acceptValue v ⟨.rootC o, stk, k⟩ = .ok ⟨.rootC (some v), stk, k⟩)
    ∧ parseFP false ("<string>a</string><string>b</string>".toList) =
        some (.ok (some (.vstr ("b")))) :=
  ⟨fun _ _ _ _ => rfl, rfl⟩

/-- Claim C1 (amended): when the driving loop reaches end of input it never
fails, whatever the frame stack contains, and the parse result is the
materialisation of the *current* container slot — the innermost still-open
container — which coincides with the Root-state value only when no nesting
remains open.  The concrete conjunct shows an input with two open containers
yielding the innermost (empty array), not the top-level dictionary. -/
theorem claim_C1_lenient_eof :
    (∀ (t : Bool) (c : Content) (fuel : Nat) (p : Position) (st : PST),
        c.length ≤ p.pos → runLoopSt t c (fuel + 1) p st = some (.ok (p, st)))
    ∧ parseFP false ("<dict><key>a</key><array>".toList) =
        some (.ok (some (.varr []))) := by
  constructor
  · intro t c fuel p st h
    simp only [runLoopSt]
    rw [if_neg (by omega)]
  · rfl

/-- Witness for `claim_C1_lenient_eof` at an exhausted position with a
non-empty frame stack: the loop still returns the state unchanged. -/
theorem claim_C1_lenient_eof_witness :
    runLoopSt false (['a']) 1 ⟨5, 1, 0⟩ ⟨.arrC [], [.rootF], none⟩ =
      some (.ok (⟨5, 1, 0⟩, ⟨.arrC [], [.rootF], none⟩)) :=
  claim_C1_lenient_eof.1 false (['a']) 0 ⟨5, 1, 0⟩ ⟨.arrC [], [.rootF], none⟩ (by decide)

/-- Counterexample to claim C1 as stated: on `<dict><key>a</key><array>` the
parse succeeds but returns the innermost open container (the empty array), not
the Root-state top-level value, which is the dictionary `{a: []}` obtained by
re-attaching the open frames. -/
theorem claim_C1_counterexample :
    parseFP false ("<dict><key>a</key><array>".toList) = some (.ok (some (.varr [])))
    ∧ (∃ p st,
        runLoopSt false ("<dict><key>a</key><array>".toList)
            (("<dict><key>a</key><array>".toList).length + 1)
            (initPos ("<dict><key>a</key><array>".toList)) initPST = some (.ok (p, st))
        ∧ st.stack ≠ []
        ∧ materialize (rootCur st.cur st.stack) = some (.vdict [(("a"), .varr [])])
        ∧ materialize st.cur ≠ materialize (rootCur st.cur st.stack)) := by
  refine ⟨rfl, ⟨25, 1, 0⟩, ⟨.arrC [], [.dictF [] ("a"), .rootF], none⟩, rfl, ?_, rfl, ?_⟩
  · simp
  · show materialize (.arrC []) ≠ materialize (rootCur (.arrC []) [.dictF [] ("a"), .rootF])
    simp [materialize, rootCur, reattachVal, objSet]

/-! ### Claim theorem: inputs with no value (C9) -/

/-- Claim C9: the empty input, inputs consisting only of whitespace, and the
input consisting of only the byte-order mark all parse without error to the
null (absent) value, with or without location tracking. -/
theorem claim_C9_empty_whitespace_bom :
    ∀ t : Bool,
      parseFP t [] = some (.ok none)
      ∧ (∀ c : Content, (∀ ch ∈ c, isWs ch = true) → parseFP t c = some (.ok none))
      ∧ parseFP t [bomChar] = some (.ok none) := by
  intro t
  refine ⟨rfl, ?_, rfl⟩
  intro c hws
  match c with
  | [] => rfl
  | a :: as =>
    have hbom : initPos (a :: as) = ⟨0, 1, 0⟩ := by
      unfold initPos
      rw [if_neg]
      rintro ⟨-, hb⟩
      have ha : isWs a = true := hws a (List.mem_cons_self a as)
      have h0 : charAt (a :: as) 0 = a := rfl
      rw [h0] at hb
      rw [hb] at ha
      exact absurd ha (by decide)
    obtain ⟨q, hq⟩ := runLoopSt_ws_exhaust t (a :: as) (a :: as).length ⟨0, 1, 0⟩ initPST
      (by simp) (fun i _ hi => hws _ (charAt_mem _ i hi))
    unfold parseFP
    rw [hbom, hq]
    rfl

/-- Witness for `claim_C9_empty_whitespace_bom` on a concrete all-whitespace
input. -/
theorem claim_C9_empty_whitespace_bom_witness :
    parseFP true (" \t\r\n ".toList) = some (.ok none) :=
  (claim_C9_empty_whitespace_bom true).2.1 (" \t\r\n ".toList) (by decide)

/-! ### Unescaping lemmas (C2) -/

theorem replaceDecAux_nil : ∀ f : Nat, replaceDecAux f [] = .ok [] := by
  intro f; cases f <;> rfl

theorem replaceHexAux_nil : ∀ f : Nat, replaceHexAux f [] = .ok [] := by
  intro f; cases f <;> rfl

theorem replaceEntAux_nil : ∀ f : Nat, replaceEntAux f [] = [] := by
  intro f; cases f <;> rfl

theorem replaceDecAux_noAmp : ∀ (s : Content) (f : Nat),
    (∀ ch ∈ s, ch ≠ '&') → replaceDecAux f s = .ok s := by
  intro s
  induction s with
  | nil => intro f _; exact replaceDecAux_nil f
  | cons a as ih =>
    intro f h
    cases f with
    | zero => rfl
    | succ k =>
      simp only [replaceDecAux]
      rw [if_neg (h a (List.mem_cons_self a as))]
      rw [ih k (fun ch hch => h ch (List.mem_cons_of_mem _ hch))]
      rfl

theorem replaceHexAux_single : ∀ (f : Nat) (ch : Char), replaceHexAux f [ch] = .ok [ch] := by
  intro f ch
  cases f with
  | zero => rfl
  | succ k =>
    by_cases h : ch = '&'
    · subst h; simp [replaceHexAux, replaceHexAux_nil, Except.map]
    · simp [replaceHexAux, replaceHexAux_nil, Except.map, h]

theorem replaceEntAux_single : ∀ (f : Nat) (ch : Char), replaceEntAux f [ch] = [ch] := by
  intro f ch
  cases f with
  | zero => rfl
  | succ k =>
    by_cases h : ch = '&'
    · subst h; simp [replaceEntAux, replaceEntAux_nil, leadsWith]
    · simp [replaceEntAux, replaceEntAux_nil, h]

theorem replaceHex_single (ch : Char) : replaceHex [ch] = .ok [ch] :=
  replaceHexAux_single _ _

theorem replaceEnt_single (ch : Char) : replaceEnt [ch] = [ch] :=
  replaceEntAux_single _ _

theorem fromCodePoint_scalar {n : Nat} (h : isScalarCP n = true) :
    fromCodePoint n = .ok [Char.ofNat n] := by
  unfold isScalarCP at h
  simp only [Bool.or_eq_true, Bool.and_eq_true, decide_eq_true_eq] at h
  unfold fromCodePoint
  rw [if_neg (by omega), if_neg (by omega)]

theorem fromCodePoint_range {n : Nat} (h : 1114111 < n) :
    fromCodePoint n = .error rangeErrorMsg := by
  unfold fromCodePoint
  rw [if_pos h]

theorem takeWhile_all_append (p : Char → Bool) :
    ∀ (l : Content) (y : Char) (r : Content), (∀ x ∈ l, p x = true) → p y = false →
      ((l ++ y :: r).takeWhile p) = l := by
  intro l
  induction l with
  | nil => intro y r _ hy; simp [List.takeWhile_cons, hy]
  | cons a as ih =>
    intro y r h hy
    have ha : p a = true := h a (List.mem_cons_self a as)
    simp only [List.cons_append, List.takeWhile_cons, ha, if_true]
    rw [ih y r (fun x hx => h x (List.mem_cons_of_mem _ hx)) hy]

theorem dropWhile_all_append (p : Char → Bool) :
    ∀ (l : Content) (y : Char) (r : Content), (∀ x ∈ l, p x = true) → p y = false →
      ((l ++ y :: r).dropWhile p) = y :: r := by
  intro l
  induction l with
  | nil => intro y r _ hy; simp [List.dropWhile_cons, hy]
  | cons a as ih =>
    intro y r h hy
    have ha : p a = true := h a (List.mem_cons_self a as)
    simp only [List.cons_append, List.dropWhile_cons, ha, if_true]
    exact ih y r (fun x hx => h x (List.mem_cons_of_mem _ hx)) hy

/-- One unfolding of the decimal scan at a position starting with `&#`. -/
theorem replaceDecAux_amp_hash (f : Nat) (rest2 : Content) :
    replaceDecAux (f + 1) ('&' :: '#' :: rest2) =
      (match rest2.dropWhile Char.isDigit with
       | ';' :: rest3 =>
         if (rest2.takeWhile Char.isDigit).isEmpty then
           (replaceDecAux f ('#' :: rest2)).map (fun r => '&' :: r)
         else
           match fromCodePoint (decDigitsVal (rest2.takeWhile Char.isDigit)) with
           | .error m => .error m
           | .ok cp => (replaceDecAux f rest3).map (fun r => cp ++ r)
       | _ => (replaceDecAux f ('#' :: rest2)).map (fun r => '&' :: r)) := rfl

/-- One unfolding of the hexadecimal scan at a position starting with `&#x`. -/
theorem replaceHexAux_amp_hash_x (f : Nat) (rest2 : Content) :
    replaceHexAux (f + 1) ('&' :: '#' :: 'x' :: rest2) =
      (match rest2.dropWhile isLowerHex with
       | ';' :: rest3 =>
         if (rest2.takeWhile isLowerHex).isEmpty then
           (replaceHexAux f ('#' :: 'x' :: rest2)).map (fun r => '&' :: r)
         else
           match fromCodePoint (hexDigitsVal (rest2.takeWhile isLowerHex)) with
           | .error m => .error m
           | .ok cp => (replaceHexAux f rest3).map (fun r => cp ++ r)
       | _ => (replaceHexAux f ('#' :: 'x' :: rest2)).map (fun r => '&' :: r)) := rfl

/-- The decimal replace maps a whole decimal character reference denoting a
Unicode scalar value to the referenced code point. -/
theorem replaceDec_decref (ds : Content) (hne : ds ≠ [])
    (hdig : ∀ ch ∈ ds, Char.isDigit ch = true)
    (hsc : isScalarCP (decDigitsVal ds) = true) :
    replaceDec ('&' :: '#' :: (ds ++ [';'])) = .ok [Char.ofNat (decDigitsVal ds)] := by
  have hTW : ((ds ++ [';']).takeWhile Char.isDigit) = ds :=
    takeWhile_all_append _ _ _ _ hdig (by decide)
  have hDW : ((ds ++ [';']).dropWhile Char.isDigit) = ';' :: [] := by
    simpa using dropWhile_all_append Char.isDigit ds ';' [] hdig (by decide)
  have hEmp : ds.isEmpty = false := by
    cases ds with
    | nil => exact absurd rfl hne
    | cons a as => rfl
  unfold replaceDec
  rw [show ('&' :: '#' :: (ds ++ [';'])).length = ('#' :: (ds ++ [';'])).length + 1 from rfl]
  rw [replaceDecAux_amp_hash, hDW, hTW]
  show (if ds.isEmpty then _ else _) = _
  rw [hEmp]
  show (match fromCodePoint (decDigitsVal ds) with
        | Except.error m => Except.error m
        | Except.ok cp => (replaceDecAux _ ([] : Content)).map (fun r => cp ++ r)) = _
  rw [fromCodePoint_scalar hsc]
  show (replaceDecAux _ ([] : Content)).map (fun r => [Char.ofNat (decDigitsVal ds)] ++ r) = _
  rw [replaceDecAux_nil]
  rfl

/-- The decimal replace aborts with the RangeError on a decimal character
reference above 0x10FFFF, exactly where `String.fromCodePoint` throws. -/
theorem replaceDec_decref_range (ds : Content) (hne : ds ≠ [])
    (hdig : ∀ ch ∈ ds, Char.isDigit ch = true)
    (hr : 1114111 < decDigitsVal ds) :
    replaceDec ('&' :: '#' :: (ds ++ [';'])) = .error rangeErrorMsg := by
  have hTW : ((ds ++ [';']).takeWhile Char.isDigit) = ds :=
    takeWhile_all_append _ _ _ _ hdig (by decide)
  have hDW : ((ds ++ [';']).dropWhile Char.isDigit) = ';' :: [] := by
    simpa using dropWhile_all_append Char.isDigit ds ';' [] hdig (by decide)
  have hEmp : ds.isEmpty = false := by
    cases ds with
    | nil => exact absurd rfl hne
    | cons a as => rfl
  unfold replaceDec
  rw [show ('&' :: '#' :: (ds ++ [';'])).length = ('#' :: (ds ++ [';'])).length + 1 from rfl]
  rw [replaceDecAux_amp_hash, hDW, hTW]
  show (if ds.isEmpty then _ else _) = _
  rw [hEmp]
  show (match fromCodePoint (decDigitsVal ds) with
        | Except.error m => Except.error m
        | Except.ok cp => (replaceDecAux _ ([] : Content)).map (fun r => cp ++ r)) = _
  rw [fromCodePoint_range hr]

/-- The decimal replace leaves a hexadecimal character reference with lowercase
digits untouched (its digits are not all decimal, so the `&#` pattern never
completes with a `;`). -/
theorem replaceDec_hexref (hs : Content) (hlow : ∀ ch ∈ hs, isLowerHex ch = true) :
    replaceDec ('&' :: '#' :: 'x' :: (hs ++ [';'])) =
      .ok ('&' :: '#' :: 'x' :: (hs ++ [';'])) := by
  have hamp : ∀ ch ∈ hs ++ [';'], ch ≠ '&' := by
    intro ch hch
    rcases List.mem_append.mp hch with h | h
    · have := hlow ch h
      intro he
      rw [he] at this
      exact absurd this (by decide)
    · have : ch = ';' := by simpa using h
      rw [this]
      decide
  have step : replaceDec ('&' :: '#' :: 'x' :: (hs ++ [';'])) =
      (((replaceDecAux ((hs ++ [';']).length) (hs ++ [';'])).map
          (fun r => 'x' :: r)).map (fun r => '#' :: r)).map (fun r => '&' :: r) := rfl
  rw [step, replaceDecAux_noAmp _ _ hamp]
  rfl

/-- The hexadecimal replace maps a whole lowercase hexadecimal character
reference denoting a Unicode scalar value to the referenced code point. -/
theorem replaceHex_hexref (hs : Content) (hne : hs ≠ [])
    (hlow : ∀ ch ∈ hs, isLowerHex ch = true)
    (hsc : isScalarCP (hexDigitsVal hs) = true) :
    replaceHex ('&' :: '#' :: 'x' :: (hs ++ [';'])) = .ok [Char.ofNat (hexDigitsVal hs)] := by
  have hTW : ((hs ++ [';']).takeWhile isLowerHex) = hs :=
    takeWhile_all_append _ _ _ _ hlow (by decide)
  have hDW : ((hs ++ [';']).dropWhile isLowerHex) = ';' :: [] := by
    simpa using dropWhile_all_append isLowerHex hs ';' [] hlow (by decide)
  have hEmp : hs.isEmpty = false := by
    cases hs with
    | nil => exact absurd rfl hne
    | cons a as => rfl
  unfold replaceHex
  rw [show ('&' :: '#' :: 'x' :: (hs ++ [';'])).length =
        ('#' :: 'x' :: (hs ++ [';'])).length + 1 from rfl]
  rw [replaceHexAux_amp_hash_x, hDW, hTW]
  show (if hs.isEmpty then _ else _) = _
  rw [hEmp]
  show (match fromCodePoint (hexDigitsVal hs) with
        | Except.error m => Except.error m
        | Except.ok cp => (replaceHexAux _ ([] : Content)).map (fun r => cp ++ r)) = _
  rw [fromCodePoint_scalar hsc]
  show (replaceHexAux _ ([] : Content)).map (fun r => [Char.ofNat (hexDigitsVal hs)] ++ r) = _
  rw [replaceHexAux_nil]
  rfl

/-! ### Claim theorem: unescaping (C2, amended) -/

/-- Claim C2 (amended): `escapeVal` replaces every decimal numeric character
reference denoting a Unicode scalar value, and every hexadecimal numeric
character reference *whose digits are all lowercase* denoting a Unicode scalar
value, with the referenced code point; a reference above 0x10FFFF aborts the
parse with the RangeError that `String.fromCodePoint` throws; the five named
entities are replaced; every other `&...;`-shaped sequence (including hex
references containing uppercase digits) is left verbatim without error; the
claimed example documents parse accordingly. -/
theorem claim_C2_unescaping :
    (∀ ds : Content, ds ≠ [] → (∀ ch ∈ ds, Char.isDigit ch = true) →
        isScalarCP (decDigitsVal ds) = true →
        escapeVal ('&' :: '#' :: (ds ++ [';'])) = .ok [Char.ofNat (decDigitsVal ds)])
    ∧ (∀ ds : Content, ds ≠ [] → (∀ ch ∈ ds, Char.isDigit ch = true) →
        1114111 < decDigitsVal ds →
        escapeVal ('&' :: '#' :: (ds ++ [';'])) = .error rangeErrorMsg)
    ∧ (∀ hs : Content, hs ≠ [] → (∀ ch ∈ hs, isLowerHex ch = true) →
        isScalarCP (hexDigitsVal hs) = true →
        escapeVal ('&' :: '#' :: 'x' :: (hs ++ [';'])) = .ok [Char.ofNat (hexDigitsVal hs)])
    ∧ escapeVal ("&amp;".toList) = .ok ("&".toList)
    ∧ escapeVal ("&lt;".toList) = .ok ("<".toList)
    ∧ escapeVal ("&gt;".toList) = .ok (">".toList)
    ∧ escapeVal ("&quot;".toList) = .ok [Char.ofNat 34]
    ∧ escapeVal ("&apos;".toList) = .ok [Char.ofNat 39]
    ∧ escapeVal ("&unknown;".toList) = .ok ("&unknown;".toList)
    ∧ parseFP false ("<string>&lt;foo&gt;</string>".toList) =
        some (.ok (some (.vstr ("<foo>"))))
    ∧ parseFP false ("<string>&quot;&apos;</string>".toList) =
        some (.ok (some (.vstr ("\"'"))))
    ∧ parseFP false ("<string>&#225;</string>".toList) =
        some (.ok (some (.vstr ("á")))) := by
  refine ⟨?_, ?_, ?_, rfl, rfl, rfl, rfl, rfl, rfl, rfl, rfl, rfl⟩
  · intro ds hne hdig hsc
    unfold escapeVal
    rw [replaceDec_decref ds hne hdig hsc]
    show (match replaceHex [Char.ofNat (decDigitsVal ds)] with
          | Except.error m => Except.error m
          | Except.ok s2 => Except.ok (replaceEnt s2)) = _
    rw [replaceHex_single]
    show Except.ok (replaceEnt [Char.ofNat (decDigitsVal ds)]) = _
    rw [replaceEnt_single]
  · intro ds hne hdig hr
    unfold escapeVal
    rw [replaceDec_decref_range ds hne hdig hr]
  · intro hs hne hlow hsc
    unfold escapeVal
    rw [replaceDec_hexref hs hlow]
    show (match replaceHex ('&' :: '#' :: 'x' :: (hs ++ [';'])) with
          | Except.error m => Except.error m
          | Except.ok s2 => Except.ok (replaceEnt s2)) = _
    rw [replaceHex_hexref hs hne hlow hsc]
    show Except.ok (replaceEnt [Char.ofNat (hexDigitsVal hs)]) = _
    rw [replaceEnt_single]

/-- Witness for `claim_C2_unescaping`: the decimal reference `&#225;` becomes
the single code point U+00E1, and the out-of-range reference `&#1114112;`
aborts with the RangeError. -/
theorem claim_C2_unescaping_witness :
    escapeVal ('&' :: '#' :: (['2', '2', '5'] ++ [';'])) = .ok [Char.ofNat 225]
    ∧ escapeVal ('&' :: '#' :: (['1', '1', '1', '4', '1', '1', '2'] ++ [';'])) =
        .error rangeErrorMsg := by
  constructor
  · have h := claim_C2_unescaping.1 (['2', '2', '5']) (by decide) (by decide) (by decide)
    exact h.trans rfl
  · exact claim_C2_unescaping.2.1 (['1', '1', '1', '4', '1', '1', '2'])
      (by decide) (by decide) (by decide)

/-- Counterexample to claim C2 as stated: `&#xE1;` is a hexadecimal numeric
character reference (hex digits may be uppercase in XML), yet it is left
verbatim rather than replaced by U+00E1, because the source regex only matches
lowercase `[0-9a-f]`. -/
theorem claim_C2_counterexample :
    escapeVal ("&#xE1;".toList) = .ok ("&#xE1;".toList)
    ∧ "&#xE1;".toList ≠ [Char.ofNat 225]
    ∧ parseFP false ("<string>&#xE1;</string>".toList) =
        some (.ok (some (.vstr ("&#xE1;")))) :=
  ⟨rfl, by decide, rfl⟩

/-! ### Occurrence-search lemmas (C7 and the loop-stepping claims) -/

theorem findOcc_some (pat : Content) :
    ∀ (s : Content) (j : Nat), findOcc pat s = some j →
      leadsWith pat (s.drop j) = true ∧ ∀ k, k < j → leadsWith pat (s.drop k) = false := by
  intro s
  induction s with
  | nil =>
    intro j h
    simp only [findOcc] at h
    by_cases hl : leadsWith pat [] = true
    · rw [if_pos hl] at h
      obtain rfl : (0 : Nat) = j := Option.some.inj h
      exact ⟨hl, fun k hk => absurd hk (by omega)⟩
    · rw [if_neg hl] at h
      exact absurd h (by simp)
  | cons b sb ih =>
    intro j h
    simp only [findOcc] at h
    by_cases hl : leadsWith pat (b :: sb) = true
    · rw [if_pos hl] at h
      obtain rfl : (0 : Nat) = j := Option.some.inj h
      exact ⟨hl, fun k hk => absurd hk (by omega)⟩
    · rw [if_neg hl] at h
      obtain ⟨j', hj', rfl⟩ := Option.map_eq_some'.mp h
      obtain ⟨hpre, hmin⟩ := ih j' hj'
      refine ⟨hpre, ?_⟩
      intro k hk
      cases k with
      | zero => exact Bool.eq_false_iff.mpr hl
      | succ k' => exact hmin k' (by omega)

theorem findOcc_none (pat : Content) :
    ∀ (s : Content), findOcc pat s = none →
      ∀ k, leadsWith pat (s.drop k) = false := by
  intro s
  induction s with
  | nil =>
    intro h k
    simp only [findOcc] at h
    by_cases hl : leadsWith pat [] = true
    · rw [if_pos hl] at h; exact absurd h (by simp)
    · rw [List.drop_nil]
      exact Bool.eq_false_iff.mpr hl
  | cons b sb ih =>
    intro h k
    simp only [findOcc] at h
    by_cases hl : leadsWith pat (b :: sb) = true
    · rw [if_pos hl] at h; exact absurd h (by simp)
    · rw [if_neg hl] at h
      cases k with
      | zero => exact Bool.eq_false_iff.mpr hl
      | succ k' => exact ih (Option.map_eq_none'.mp h) k'

theorem findOcc_le (pat : Content) :
    ∀ (s : Content) (j : Nat), findOcc pat s = some j → j ≤ s.length := by
  intro s
  induction s with
  | nil =>
    intro j h
    simp only [findOcc] at h
    by_cases hl : leadsWith pat [] = true
    · rw [if_pos hl] at h
      obtain rfl : (0 : Nat) = j := Option.some.inj h
      exact le_refl _
    · rw [if_neg hl] at h
      exact absurd h (by simp)
  | cons b sb ih =>
    intro j h
    simp only [findOcc] at h
    by_cases hl : leadsWith pat (b :: sb) = true
    · rw [if_pos hl] at h
      obtain rfl : (0 : Nat) = j := Option.some.inj h
      exact Nat.zero_le _
    · rw [if_neg hl] at h
      obtain ⟨j', hj', rfl⟩ := Option.map_eq_some'.mp h
      have := ih j' hj'
      simp only [List.length_cons]
      omega

theorem leadsWith_length : ∀ (pat l : Content), leadsWith pat l = true →
    pat.length ≤ l.length := by
  intro pat
  induction pat with
  | nil => intro l _; simp
  | cons a pa ih =>
    intro l h
    cases l with
    | nil => cases h
    | cons b sb =>
      unfold leadsWith at h
      simp only [Bool.and_eq_true] at h
      have := ih sb h.2
      simp only [List.length_cons]
      omega

/-- First occurrence of a one-character delimiter placed right after a clean
feed: scanning `s ++ ch :: z` for `ch` finds index `s.length` when `ch` does
not occur in `s`. -/
theorem findOcc_char_boundary (ch : Char) :
    ∀ (s z : Content), findOcc [ch] s = none →
      findOcc [ch] (s ++ ch :: z) = some s.length := by
  intro s
  induction s with
  | nil =>
    intro z _
    simp [findOcc, leadsWith]
  | cons a s' ih =>
    intro z h
    simp only [findOcc] at h
    by_cases hl : leadsWith [ch] (a :: s') = true
    · rw [if_pos hl] at h
      exact absurd h (by simp)
    · rw [if_neg hl] at h
      have h2 : findOcc [ch] s' = none := Option.map_eq_none'.mp h
      have hcond : leadsWith [ch] (a :: (s' ++ ch :: z)) = false := by
        have hb := Bool.eq_false_iff.mpr hl
        simp only [leadsWith, Bool.and_true] at hb ⊢
        exact hb
      show findOcc [ch] (a :: (s' ++ ch :: z)) = some (s'.length + 1)
      simp only [findOcc, hcond, Bool.false_eq_true, if_false, ih z h2,
        Option.map_some']

/-- First occurrence of the `</` delimiter placed right after a clean feed:
scanning `s ++ '<' :: '/' :: z` for `</` finds index `s.length` when `</` does
not occur in `s` (a trailing `<` in `s` cannot join the appended `<`). -/
theorem findOcc_ltSlash_boundary :
    ∀ (s z : Content), findOcc (['<', '/']) s = none →
      findOcc (['<', '/']) (s ++ '<' :: '/' :: z) = some s.length := by
  intro s
  induction s with
  | nil =>
    intro z _
    simp [findOcc, leadsWith]
  | cons a s' ih =>
    intro z h
    simp only [findOcc] at h
    by_cases hl : leadsWith (['<', '/']) (a :: s') = true
    · rw [if_pos hl] at h
      exact absurd h (by simp)
    · rw [if_neg hl] at h
      have h2 : findOcc (['<', '/']) s' = none := Option.map_eq_none'.mp h
      have hcond : leadsWith (['<', '/']) (a :: (s' ++ '<' :: '/' :: z)) = false := by
        cases s' with
        | nil =>
          have hne : (('/' : Char) == '<') = false := by decide
          simp [leadsWith, hne]
        | cons b s'' =>
          have hb := Bool.eq_false_iff.mpr hl
          simp only [leadsWith, List.cons_append, Bool.and_true] at hb ⊢
          exact hb
      show findOcc (['<', '/']) (a :: (s' ++ '<' :: '/' :: z)) = some (s'.length + 1)
      simp only [findOcc, hcond, Bool.false_eq_true, if_false, ih z h2,
        Option.map_some']

/-- The driving loop returns current position and state untouched as soon as
the position has reached end of input. -/
theorem runLoopSt_eof (t : Bool) (c : Content) (fuel : Nat) (p : Position) (st : PST)
    (hp : c.length ≤ p.pos) (hf : 0 < fuel) :
    runLoopSt t c fuel p st = some (.ok (p, st)) := by
  cases fuel with
  | zero => exact absurd hf (by omega)
  | succ k =>
    simp only [runLoopSt]
    rw [if_neg (by omega)]

/-- Position arithmetic with tracking disabled is plain addition. -/
theorem advancePosBy_false (c : Content) (p : Position) (n : Nat) :
    advancePosBy false c p n = ⟨p.pos + n, p.line, p.char⟩ := rfl

/-- One iteration of the driving loop across a recognised non-self-closing
leaf tag, reduced to the corresponding state-machine action.  The caller
supplies the scan results (which are plain evaluations for a concrete tag). -/
theorem runLoopSt_leaf_iter (c : Content) (fuel : Nat) (p0 p1 pEnd : Position)
    (st : PST) (nm v : Content)
    (h0 : p0.pos < c.length)
    (hskip : skipWhitespace false c p0 = p0)
    (hlt : charAt c p0.pos = '<')
    (h2 : p0.pos + 1 < c.length)
    (hq : charAt c (p0.pos + 1) ≠ '?')
    (hx : charAt c (p0.pos + 1) ≠ '!')
    (hs : charAt c (p0.pos + 1) ≠ '/')
    (hopen : parseOpenTag false c ⟨p0.pos + 1, p0.line, p0.char⟩ = (⟨nm, false⟩, p1))
    (hnc : ¬(nm = dictL ∨ nm = arrayL))
    (hleaf : isLeafName nm = true)
    (htv : parseTagValue false c ⟨nm, false⟩ p1 = (.ok v, pEnd)) :
    runLoopSt false c (fuel + 1) p0 st =
      (match leafOp nm v st with
       | .error m => some (.error ⟨pEnd.pos, m⟩)
       | .ok st1 => runLoopSt false c fuel pEnd st1) := by
  simp only [runLoopSt, hskip, advancePosBy_false, hlt]
  rw [if_pos h0, if_neg (by omega), if_neg (by simp), if_neg (by omega)]
  rw [if_neg hq, if_neg hx, if_neg hs, hopen]
  rw [if_neg hnc, if_pos (by rw [hleaf]), htv]

/-! ### Claim theorem: the until-scanners (C7) -/

/-- Claim C7: `advanceUntil` moves the position to just past the first
occurrence of the delimiter at or after the current position, or to end of
input when the delimiter never occurs at or after it; `captureUntil` does the
same while returning exactly the text strictly between the starting position
and the delimiter (respectively the remaining text), never including the
delimiter. -/
theorem claim_C7_scanner (t : Bool) (c pat : Content) (p : Position)
    (hp : p.pos ≤ c.length) :
    (∃ j, p.pos ≤ j ∧ occursAt c pat j
        ∧ (∀ i, p.pos ≤ i → i < j → ¬ occursAt c pat i)
        ∧ (advanceUntil t c pat p).pos = j + pat.length
        ∧ (captureUntil t c pat p).1 = (c.take j).drop p.pos
        ∧ (captureUntil t c pat p).2.pos = j + pat.length)
    ∨ ((∀ i, p.pos ≤ i → ¬ occursAt c pat i)
        ∧ (advanceUntil t c pat p).pos = c.length
        ∧ (captureUntil t c pat p).1 = c.drop p.pos
        ∧ (captureUntil t c pat p).2.pos = c.length) := by
  cases hfo : findOcc pat (c.drop p.pos) with
  | none =>
    have hio : indexOfFrom c pat p.pos = none := by
      simp [indexOfFrom, hfo]
    have hau : (advanceUntil t c pat p).pos = c.length := by
      unfold advanceUntil
      rw [hio]
      exact advancePosTo_pos t c p hp
    have hcap : (captureUntil t c pat p).1 = c.drop p.pos := by
      unfold captureUntil
      rw [hio]
    have hcp : (captureUntil t c pat p).2.pos = c.length := by
      unfold captureUntil
      rw [hio]
      exact advancePosTo_pos t c p hp
    right
    refine ⟨?_, hau, hcap, hcp⟩
    intro i hi
    have h := findOcc_none pat _ hfo (i - p.pos)
    rw [List.drop_drop, show p.pos + (i - p.pos) = i from by omega] at h
    unfold occursAt
    rw [h]
    intro hfalse
    cases hfalse
  | some j' =>
    have hio : indexOfFrom c pat p.pos = some (j' + p.pos) := by
      simp [indexOfFrom, hfo]
    have hau : (advanceUntil t c pat p).pos = (j' + p.pos) + pat.length := by
      unfold advanceUntil
      rw [hio]
      exact advancePosTo_pos t c p (by omega)
    have hcap : (captureUntil t c pat p).1 = (c.take (j' + p.pos)).drop p.pos := by
      unfold captureUntil
      rw [hio]
    have hcp : (captureUntil t c pat p).2.pos = (j' + p.pos) + pat.length := by
      unfold captureUntil
      rw [hio]
      exact advancePosTo_pos t c p (by omega)
    left
    obtain ⟨hpre, hmin⟩ := findOcc_some pat _ j' hfo
    refine ⟨j' + p.pos, by omega, ?_, ?_, hau, hcap, hcp⟩
    · unfold occursAt
      rw [List.drop_drop, show p.pos + j' = j' + p.pos from by omega] at hpre
      exact hpre
    · intro i hi1 hi2
      have h := hmin (i - p.pos) (by omega)
      rw [List.drop_drop, show p.pos + (i - p.pos) = i from by omega] at h
      unfold occursAt
      rw [h]
      intro hfalse
      cases hfalse

/-- Witness for `claim_C7_scanner` on the input `ab<cd` scanning for `<` from
offset 0: the delimiter occurs first at index 2, so the position lands at 3 and
the captured text is `ab`. -/
theorem claim_C7_scanner_witness :
    (∃ j, (0 : Nat) ≤ j ∧ occursAt ("ab<cd".toList) (['<']) j
        ∧ (∀ i, (0 : Nat) ≤ i → i < j → ¬ occursAt ("ab<cd".toList) (['<']) i)
        ∧ (advanceUntil false ("ab<cd".toList) (['<']) ⟨0, 1, 0⟩).pos =
            j + (['<'] : Content).length
        ∧ (captureUntil false ("ab<cd".toList) (['<']) ⟨0, 1, 0⟩).1 =
            (("ab<cd".toList).take j).drop 0
        ∧ (captureUntil false ("ab<cd".toList) (['<']) ⟨0, 1, 0⟩).2.pos =
            j + (['<'] : Content).length)
    ∨ ((∀ i, (0 : Nat) ≤ i → ¬ occursAt ("ab<cd".toList) (['<']) i)
        ∧ (advanceUntil false ("ab<cd".toList) (['<']) ⟨0, 1, 0⟩).pos =
            ("ab<cd".toList).length
        ∧ (captureUntil false ("ab<cd".toList) (['<']) ⟨0, 1, 0⟩).1 =
            ("ab<cd".toList).drop 0
        ∧ (captureUntil false ("ab<cd".toList) (['<']) ⟨0, 1, 0⟩).2.pos =
            ("ab<cd".toList).length) :=
  claim_C7_scanner false ("ab<cd".toList) (['<']) ⟨0, 1, 0⟩ (by decide)

/-! ### Claim theorem: unterminated leaf tags are absorbed (C6) -/

/-- Claim C6 (amended): an input that ends inside a non-self-closing leaf tag,
with no `</` ever occurring after the tag, does not fail *provided unescaping
the remaining text does not throw*: the remaining text up to end of input
becomes the leaf content (after unescaping) and is accepted as the value.  (A
numeric character reference above 0x10FFFF in that text makes
`String.fromCodePoint` throw a RangeError, which does abort the parse — see
`claim_C6_counterexample` — a failure on account of the bad reference, not of
the missing delimiter.) -/
theorem claim_C6_unterminated_leaf :
    ∀ rest w : Content, findOcc (['<', '/']) rest = none →
      escapeVal rest = .ok w →
      parseFP false ("<string>".toList ++ rest) =
        some (.ok (some (.vstr (String.mk w)))) := by
  intro rest w hrest hesc
  have hlen : ("<string>".toList ++ rest).length = rest.length + 8 := by
    rw [List.length_append, show ("<string>".toList).length = 8 from rfl]
    omega
  have hip : initPos ("<string>".toList ++ rest) = ⟨0, 1, 0⟩ := by
    unfold initPos
    rw [if_neg]
    rintro ⟨-, hb⟩
    rw [show charAt ("<string>".toList ++ rest) 0 = '<' from rfl] at hb
    exact absurd hb (by decide)
  have hio : indexOfFrom ("<string>".toList ++ rest) ltSlashL 8 = none := by
    unfold indexOfFrom
    rw [show ("<string>".toList ++ rest).drop 8 = rest from rfl]
    rw [show ltSlashL = ['<', '/'] from rfl, hrest]
    rfl
  have hcap : captureUntil false ("<string>".toList ++ rest) ltSlashL ⟨8, 1, 0⟩ =
      (rest, ⟨("<string>".toList ++ rest).length, 1, 0⟩) := by
    unfold captureUntil
    rw [hio]
    rw [Prod.mk.injEq]
    exact ⟨rfl, rfl⟩
  have hio2 : indexOfFrom ("<string>".toList ++ rest) gtL
      (("<string>".toList ++ rest).length) = none := by
    unfold indexOfFrom
    rw [List.drop_length]
    rfl
  have hadv : advanceUntil false ("<string>".toList ++ rest) gtL
      ⟨("<string>".toList ++ rest).length, 1, 0⟩ =
      ⟨("<string>".toList ++ rest).length, 1, 0⟩ := by
    unfold advanceUntil
    rw [hio2]
    rfl
  have htv : parseTagValue false ("<string>".toList ++ rest) ⟨"string".toList, false⟩
      ⟨8, 1, 0⟩ =
      (Except.ok w, ⟨("<string>".toList ++ rest).length, 1, 0⟩) := by
    simp only [parseTagValue, Bool.false_eq_true, if_false, hcap, hadv]
    rw [hesc]
  have hiter := runLoopSt_leaf_iter ("<string>".toList ++ rest)
    (("<string>".toList ++ rest).length) ⟨0, 1, 0⟩ ⟨8, 1, 0⟩
    ⟨("<string>".toList ++ rest).length, 1, 0⟩ initPST ("string".toList) w
    (by show (0 : Nat) < ("<string>".toList ++ rest).length; rw [hlen]; omega)
    (skipWS_nonws false _ _ rfl)
    rfl
    (by show (0 : Nat) + 1 < ("<string>".toList ++ rest).length; rw [hlen]; omega)
    (by intro hc; exact absurd (show ('s' : Char) = '?' from hc) (by decide))
    (by intro hc; exact absurd (show ('s' : Char) = '!' from hc) (by decide))
    (by intro hc; exact absurd (show ('s' : Char) = '/' from hc) (by decide))
    rfl
    (by decide)
    (by decide)
    htv
  unfold parseFP
  rw [hip, hiter]
  rw [show leafOp ("string".toList) w initPST =
      .ok ⟨.rootC (some (.vstr (String.mk w))), [], none⟩ from rfl]
  show (runLoopSt false ("<string>".toList ++ rest) (("<string>".toList ++ rest).length)
      ⟨("<string>".toList ++ rest).length, 1, 0⟩
      ⟨.rootC (some (.vstr (String.mk w))), [], none⟩).map
      (fun r => r.map (fun x => materialize x.2.cur)) =
      some (.ok (some (.vstr (String.mk w))))
  rw [runLoopSt_eof false _ _ _ _ (le_refl _) (by rw [hlen]; omega)]
  rfl

/-- Witness for `claim_C6_unterminated_leaf` on the test input
`<string>Hello world`: the parse succeeds with the trailing text as the value. -/
theorem claim_C6_unterminated_leaf_witness :
    parseFP false ("<string>Hello world".toList) =
      some (.ok (some (.vstr ("Hello world")))) := by
  have h := claim_C6_unterminated_leaf ("Hello world".toList) ("Hello world".toList)
    (by decide) rfl
  exact h

/-- Counterexample to claim C6 as stated: the input `<string>&#1114112;` ends
inside an unterminated `<string>` leaf with no later `</`, yet the parse does
fail — the out-of-range numeric character reference makes
`String.fromCodePoint` throw a RangeError inside `escapeVal`, which propagates
out of `parse` — so "parsing never fails on account of the missing
delimiter" does not extend to every such input: absorption holds only when
unescaping the trailing text succeeds. -/
theorem claim_C6_counterexample :
    escapeVal ("&#1114112;".toList) = .error rangeErrorMsg
    ∧ parseFP false ("<string>&#1114112;".toList) =
        some (.error ⟨18, rangeErrorMsg⟩) :=
  ⟨rfl, rfl⟩

/-! ### Claim theorem: numeric leaves and their value errors (C5) -/

/-- Claim C5: an `<integer>` leaf parses its decoded text with
`parseInt(text, 10)` and fails with the "cannot parse integer" error exactly
when that conversion yields NaN; a `<real>` leaf behaves the same with
`parseFloat` and "cannot parse float"; in particular `<integer>ab</integer>`
and `<real>ab</real>` both fail with a value-parse error.  The stored integer
is asserted only below 2^53, where the source's number type is exact; the
stored real is asserted only existentially (the source rounds the decimal
literal to the nearest IEEE double, which never affects the error/success
boundary). -/
theorem claim_C5_numeric_leaves :
    (∀ s w : Content, findOcc (['<', '/']) s = none → escapeVal s = .ok w →
        (jsParseInt10 w = none →
          parseFP false ("<integer>".toList ++ (s ++ "</integer>".toList)) =
            some (.error ⟨("<integer>".toList ++ (s ++ "</integer>".toList)).length,
              "cannot parse integer"⟩))
        ∧ (∀ n : Int, jsParseInt10 w = some n →
            (∃ v : JSVal,
              parseFP false ("<integer>".toList ++ (s ++ "</integer>".toList)) =
                some (.ok (some v)))
            ∧ (-(2 ^ 53 : Int) < n → n < 2 ^ 53 →
                parseFP false ("<integer>".toList ++ (s ++ "</integer>".toList)) =
                  some (.ok (some (.vint n))))))
    ∧ (∀ s w : Content, findOcc (['<', '/']) s = none → escapeVal s = .ok w →
        (jsParseFloat w = none →
          parseFP false ("<real>".toList ++ (s ++ "</real>".toList)) =
            some (.error ⟨("<real>".toList ++ (s ++ "</real>".toList)).length,
              "cannot parse float"⟩))
        ∧ (∀ q : JSNum, jsParseFloat w = some q →
            ∃ v : JSVal,
              parseFP false ("<real>".toList ++ (s ++ "</real>".toList)) =
                some (.ok (some v))))
    ∧ parseFP false ("<integer>ab</integer>".toList) =
        some (.error ⟨21, "cannot parse integer"⟩)
    ∧ parseFP false ("<real>ab</real>".toList) =
        some (.error ⟨15, "cannot parse float"⟩) := by
  refine ⟨?_, ?_, rfl, rfl⟩
  · intro s w hs hesc
    have hlen : ("<integer>".toList ++ (s ++ "</integer>".toList)).length =
        s.length + 19 := by
      rw [List.length_append, List.length_append,
        show ("<integer>".toList).length = 9 from rfl,
        show ("</integer>".toList).length = 10 from rfl]
      omega
    have hip : initPos ("<integer>".toList ++ (s ++ "</integer>".toList)) = ⟨0, 1, 0⟩ := by
      unfold initPos
      rw [if_neg]
      rintro ⟨-, hb⟩
      rw [show charAt ("<integer>".toList ++ (s ++ "</integer>".toList)) 0 = '<'
        from rfl] at hb
      exact absurd hb (by decide)
    have hio : indexOfFrom ("<integer>".toList ++ (s ++ "</integer>".toList)) ltSlashL 9 =
        some (s.length + 9) := by
      unfold indexOfFrom
      rw [show ("<integer>".toList ++ (s ++ "</integer>".toList)).drop 9 =
        s ++ '<' :: '/' :: ("integer>".toList) from rfl]
      rw [show ltSlashL = ['<', '/'] from rfl]
      rw [findOcc_ltSlash_boundary s _ hs]
      rfl
    have htake : ((("<integer>".toList ++ (s ++ "</integer>".toList)).take
        (s.length + 9)).drop 9) = s := by
      rw [show s.length + 9 = ("<integer>".toList).length + s.length from by
        rw [show ("<integer>".toList).length = 9 from rfl]; omega]
      rw [List.take_append]
      rw [show (s ++ "</integer>".toList).take s.length = s from
        List.take_left s ("</integer>".toList)]
      rfl
    have hcap : captureUntil false ("<integer>".toList ++ (s ++ "</integer>".toList))
        ltSlashL ⟨9, 1, 0⟩ = (s, ⟨s.length + 11, 1, 0⟩) := by
      unfold captureUntil
      rw [hio]
      rw [Prod.mk.injEq]
      exact ⟨htake, rfl⟩
    have hio2 : indexOfFrom ("<integer>".toList ++ (s ++ "</integer>".toList)) gtL
        (s.length + 11) = some (7 + (s.length + 11)) := by
      unfold indexOfFrom
      rw [show s.length + 11 = ("<integer>".toList).length + (s.length + 2) from by
        rw [show ("<integer>".toList).length = 9 from rfl]; omega]
      rw [List.drop_append, List.drop_append]
      rw [show ("</integer>".toList).drop 2 = "integer>".toList from rfl]
      rw [show findOcc gtL ("integer>".toList) = some 7 from rfl]
      rw [show ("<integer>".toList).length + (s.length + 2) = s.length + 11 from by
        rw [show ("<integer>".toList).length = 9 from rfl]; omega]
      rfl
    have hadv : advanceUntil false ("<integer>".toList ++ (s ++ "</integer>".toList)) gtL
        ⟨s.length + 11, 1, 0⟩ = ⟨s.length + 19, 1, 0⟩ := by
      unfold advanceUntil
      rw [hio2]
      show advancePosTo false _ ⟨s.length + 11, 1, 0⟩ (7 + (s.length + 11) + 1) = _
      rw [show 7 + (s.length + 11) + 1 = s.length + 19 from by omega]
      rfl
    have htv : parseTagValue false ("<integer>".toList ++ (s ++ "</integer>".toList))
        ⟨"integer".toList, false⟩ ⟨9, 1, 0⟩ =
        (Except.ok w, ⟨s.length + 19, 1, 0⟩) := by
      simp only [parseTagValue, Bool.false_eq_true, if_false, hcap, hadv]
      rw [hesc]
    have hiter := runLoopSt_leaf_iter ("<integer>".toList ++ (s ++ "</integer>".toList))
      (("<integer>".toList ++ (s ++ "</integer>".toList)).length) ⟨0, 1, 0⟩ ⟨9, 1, 0⟩
      ⟨s.length + 19, 1, 0⟩ initPST ("integer".toList) w
      (by show (0 : Nat) < ("<integer>".toList ++ (s ++ "</integer>".toList)).length; rw [hlen]; omega)
      (skipWS_nonws false _ _ rfl)
      rfl
      (by show (0 : Nat) + 1 < ("<integer>".toList ++ (s ++ "</integer>".toList)).length; rw [hlen]; omega)
      (by intro hc; exact absurd (show ('i' : Char) = '?' from hc) (by decide))
      (by intro hc; exact absurd (show ('i' : Char) = '!' from hc) (by decide))
      (by intro hc; exact absurd (show ('i' : Char) = '/' from hc) (by decide))
      rfl
      (by decide)
      (by decide)
      htv
    have hleafop : ∀ (u : Content) (stw : PST), leafOp ("integer".toList) u stw =
        (match jsParseInt10 u with
         | none => .error ("cannot parse integer")
         | some i => acceptValue (.vint i) stw) := fun _ _ => rfl
    constructor
    · intro hv
      unfold parseFP
      rw [hip, hiter, hleafop, hv, hlen]
      rfl
    · intro n hv
      have hsucc : parseFP false ("<integer>".toList ++ (s ++ "</integer>".toList)) =
          some (.ok (some (.vint n))) := by
        unfold parseFP
        rw [hip, hiter, hleafop, hv]
        show (runLoopSt false ("<integer>".toList ++ (s ++ "</integer>".toList))
            (("<integer>".toList ++ (s ++ "</integer>".toList)).length)
            ⟨s.length + 19, 1, 0⟩ ⟨.rootC (some (.vint n)), [], none⟩).map
            (fun r => r.map (fun x => materialize x.2.cur)) =
            some (.ok (some (.vint n)))
        rw [runLoopSt_eof false _ _ _ _
          (by show _ ≤ s.length + 19; rw [hlen]) (by rw [hlen]; omega)]
        rfl
      exact ⟨⟨.vint n, hsucc⟩, fun _ _ => hsucc⟩
  · intro s w hs hesc
    have hlen : ("<real>".toList ++ (s ++ "</real>".toList)).length = s.length + 13 := by
      rw [List.length_append, List.length_append,
        show ("<real>".toList).length = 6 from rfl,
        show ("</real>".toList).length = 7 from rfl]
      omega
    have hip : initPos ("<real>".toList ++ (s ++ "</real>".toList)) = ⟨0, 1, 0⟩ := by
      unfold initPos
      rw [if_neg]
      rintro ⟨-, hb⟩
      rw [show charAt ("<real>".toList ++ (s ++ "</real>".toList)) 0 = '<' from rfl] at hb
      exact absurd hb (by decide)
    have hio : indexOfFrom ("<real>".toList ++ (s ++ "</real>".toList)) ltSlashL 6 =
        some (s.length + 6) := by
      unfold indexOfFrom
      rw [show ("<real>".toList ++ (s ++ "</real>".toList)).drop 6 =
        s ++ '<' :: '/' :: ("real>".toList) from rfl]
      rw [show ltSlashL = ['<', '/'] from rfl]
      rw [findOcc_ltSlash_boundary s _ hs]
      rfl
    have htake : ((("<real>".toList ++ (s ++ "</real>".toList)).take
        (s.length + 6)).drop 6) = s := by
      rw [show s.length + 6 = ("<real>".toList).length + s.length from by
        rw [show ("<real>".toList).length = 6 from rfl]; omega]
      rw [List.take_append]
      rw [show (s ++ "</real>".toList).take s.length = s from
        List.take_left s ("</real>".toList)]
      rfl
    have hcap : captureUntil false ("<real>".toList ++ (s ++ "</real>".toList))
        ltSlashL ⟨6, 1, 0⟩ = (s, ⟨s.length + 8, 1, 0⟩) := by
      unfold captureUntil
      rw [hio]
      rw [Prod.mk.injEq]
      exact ⟨htake, rfl⟩
    have hio2 : indexOfFrom ("<real>".toList ++ (s ++ "</real>".toList)) gtL
        (s.length + 8) = some (4 + (s.length + 8)) := by
      unfold indexOfFrom
      rw [show s.length + 8 = ("<real>".toList).length + (s.length + 2) from by
        rw [show ("<real>".toList).length = 6 from rfl]; omega]
      rw [List.drop_append, List.drop_append]
      rw [show ("</real>".toList).drop 2 = "real>".toList from rfl]
      rw [show findOcc gtL ("real>".toList) = some 4 from rfl]
      rw [show ("<real>".toList).length + (s.length + 2) = s.length + 8 from by
        rw [show ("<real>".toList).length = 6 from rfl]; omega]
      rfl
    have hadv : advanceUntil false ("<real>".toList ++ (s ++ "</real>".toList)) gtL
        ⟨s.length + 8, 1, 0⟩ = ⟨s.length + 13, 1, 0⟩ := by
      unfold advanceUntil
      rw [hio2]
      show advancePosTo false _ ⟨s.length + 8, 1, 0⟩ (4 + (s.length + 8) + 1) = _
      rw [show 4 + (s.length + 8) + 1 = s.length + 13 from by omega]
      rfl
    have htv : parseTagValue false ("<real>".toList ++ (s ++ "</real>".toList))
        ⟨"real".toList, false⟩ ⟨6, 1, 0⟩ =
        (Except.ok w, ⟨s.length + 13, 1, 0⟩) := by
      simp only [parseTagValue, Bool.false_eq_true, if_false, hcap, hadv]
      rw [hesc]
    have hiter := runLoopSt_leaf_iter ("<real>".toList ++ (s ++ "</real>".toList))
      (("<real>".toList ++ (s ++ "</real>".toList)).length) ⟨0, 1, 0⟩ ⟨6, 1, 0⟩
      ⟨s.length + 13, 1, 0⟩ initPST ("real".toList) w
      (by show (0 : Nat) < ("<real>".toList ++ (s ++ "</real>".toList)).length; rw [hlen]; omega)
      (skipWS_nonws false _ _ rfl)
      rfl
      (by show (0 : Nat) + 1 < ("<real>".toList ++ (s ++ "</real>".toList)).length; rw [hlen]; omega)
      (by intro hc; exact absurd (show ('r' : Char) = '?' from hc) (by decide))
      (by intro hc; exact absurd (show ('r' : Char) = '!' from hc) (by decide))
      (by intro hc; exact absurd (show ('r' : Char) = '/' from hc) (by decide))
      rfl
      (by decide)
      (by decide)
      htv
    have hleafop : ∀ (u : Content) (stw : PST), leafOp ("real".toList) u stw =
        (match jsParseFloat u with
         | none => .error ("cannot parse float")
         | some q => acceptValue (.vreal q) stw) := fun _ _ => rfl
    constructor
    · intro hv
      unfold parseFP
      rw [hip, hiter, hleafop, hv, hlen]
      rfl
    · intro q hv
      refine ⟨.vreal q, ?_⟩
      unfold parseFP
      rw [hip, hiter, hleafop, hv]
      show (runLoopSt false ("<real>".toList ++ (s ++ "</real>".toList))
          (("<real>".toList ++ (s ++ "</real>".toList)).length)
          ⟨s.length + 13, 1, 0⟩ ⟨.rootC (some (.vreal q)), [], none⟩).map
          (fun r => r.map (fun x => materialize x.2.cur)) =
          some (.ok (some (.vreal q)))
      rw [runLoopSt_eof false _ _ _ _
        (by show _ ≤ s.length + 13; rw [hlen]) (by rw [hlen]; omega)]
      rfl

/-- Witness for `claim_C5_numeric_leaves`: `<integer>7</integer>` parses to the
integer 7 (unescaping is the identity on `7`, the conversion succeeds, and 7 is
below 2^53). -/
theorem claim_C5_numeric_leaves_witness :
    parseFP false ("<integer>7</integer>".toList) = some (.ok (some (.vint 7))) := by
  have h := (claim_C5_numeric_leaves.1 (['7']) (['7']) (by decide) rfl).2 7 rfl
  exact h.2 (by decide) (by decide)

/-! ### Position-determinism lemmas for the tracking modes (C8) -/

theorem skipWS_pos_eq (t1 t2 : Bool) (c : Content) (p1 p2 : Position)
    (h : p1.pos = p2.pos) :
    (skipWhitespace t1 c p1).pos = (skipWhitespace t2 c p2).pos := by
  unfold skipWhitespace
  rw [h]
  exact skipWSAux_pos_eq t1 t2 c _ p1 p2 h

theorem skipWS_le (t : Bool) (c : Content) (p : Position) (h : p.pos ≤ c.length) :
    (skipWhitespace t c p).pos ≤ c.length :=
  skipWSAux_le t c _ p h

theorem indexOfFrom_ge {c pat : Content} {i j : Nat}
    (h : indexOfFrom c pat i = some j) : i ≤ j := by
  unfold indexOfFrom at h
  obtain ⟨j', _, rfl⟩ := Option.map_eq_some'.mp h
  omega

theorem indexOfFrom_add_le {c pat : Content} {i j : Nat} (hi : i ≤ c.length)
    (h : indexOfFrom c pat i = some j) : j + pat.length ≤ c.length := by
  unfold indexOfFrom at h
  obtain ⟨j', hj', rfl⟩ := Option.map_eq_some'.mp h
  have hle := findOcc_le pat _ _ hj'
  have hpre := (findOcc_some pat _ _ hj').1
  have hplen := leadsWith_length _ _ hpre
  rw [List.length_drop] at hle
  rw [List.length_drop, List.length_drop] at hplen
  omega

theorem advanceUntil_pos (t : Bool) (c pat : Content) (p : Position)
    (hp : p.pos ≤ c.length) :
    (advanceUntil t c pat p).pos =
      (match indexOfFrom c pat p.pos with
       | some j => j + pat.length
       | none => c.length) := by
  unfold advanceUntil
  cases hio : indexOfFrom c pat p.pos with
  | none => exact advancePosTo_pos t c p hp
  | some j =>
    have := indexOfFrom_ge hio
    exact advancePosTo_pos t c p (by omega)

theorem advanceUntil_pos_eq (t1 t2 : Bool) (c pat : Content) (p1 p2 : Position)
    (h : p1.pos = p2.pos) (hp : p1.pos ≤ c.length) :
    (advanceUntil t1 c pat p1).pos = (advanceUntil t2 c pat p2).pos := by
  rw [advanceUntil_pos t1 c pat p1 hp, advanceUntil_pos t2 c pat p2 (by omega), h]

theorem advanceUntil_le (t : Bool) (c pat : Content) (p : Position)
    (hp : p.pos ≤ c.length) : (advanceUntil t c pat p).pos ≤ c.length := by
  rw [advanceUntil_pos t c pat p hp]
  cases hio : indexOfFrom c pat p.pos with
  | none => exact le_refl _
  | some j => exact indexOfFrom_add_le hp hio

theorem captureUntil_snd (t : Bool) (c pat : Content) (p : Position) :
    (captureUntil t c pat p).2 = advanceUntil t c pat p := by
  unfold captureUntil advanceUntil
  cases indexOfFrom c pat p.pos <;> rfl

theorem captureUntil_fst_eq (t1 t2 : Bool) (c pat : Content) (p1 p2 : Position)
    (h : p1.pos = p2.pos) :
    (captureUntil t1 c pat p1).1 = (captureUntil t2 c pat p2).1 := by
  unfold captureUntil
  rw [h]
  cases indexOfFrom c pat p2.pos <;> rfl

theorem aisw_fst_eq (t1 t2 : Bool) (c str : Content) (p1 p2 : Position)
    (h : p1.pos = p2.pos) :
    (advanceIfStartsWith t1 c str p1).1 = (advanceIfStartsWith t2 c str p2).1 := by
  unfold advanceIfStartsWith
  rw [h]
  split_ifs <;> rfl

theorem aisw_snd_pos (t : Bool) (c str : Content) (p : Position) :
    (advanceIfStartsWith t c str p).2.pos =
      (if (c.drop p.pos).take str.length = str then p.pos + str.length else p.pos) := by
  unfold advanceIfStartsWith
  split_ifs with hc
  · exact advancePosBy_pos t c p str.length
  · rfl

theorem aisw_snd_pos_eq (t1 t2 : Bool) (c str : Content) (p1 p2 : Position)
    (h : p1.pos = p2.pos) :
    (advanceIfStartsWith t1 c str p1).2.pos = (advanceIfStartsWith t2 c str p2).2.pos := by
  rw [aisw_snd_pos, aisw_snd_pos, h]

theorem aisw_snd_le (t : Bool) (c str : Content) (p : Position)
    (hp : p.pos ≤ c.length) : (advanceIfStartsWith t c str p).2.pos ≤ c.length := by
  rw [aisw_snd_pos]
  split_ifs with hc
  · have h1 : ((c.drop p.pos).take str.length).length = str.length := by rw [hc]
    rw [List.length_take, List.length_drop] at h1
    omega
  · exact hp

theorem parseOpenTag_fst_eq (t1 t2 : Bool) (c : Content) (p1 p2 : Position)
    (h : p1.pos = p2.pos) :
    (parseOpenTag t1 c p1).1 = (parseOpenTag t2 c p2).1 := by
  unfold parseOpenTag
  dsimp only
  rw [captureUntil_fst_eq t1 t2 c gtL p1 p2 h]
  split_ifs <;> rfl

theorem parseOpenTag_snd (t : Bool) (c : Content) (p : Position) :
    (parseOpenTag t c p).2 = advanceUntil t c gtL p := by
  unfold parseOpenTag
  dsimp only
  split_ifs <;> exact captureUntil_snd t c gtL p

theorem parseTagValue_fst_eq (t1 t2 : Bool) (c : Content) (tag : IParsedTag)
    (p1 p2 : Position) (h : p1.pos = p2.pos) :
    (parseTagValue t1 c tag p1).1 = (parseTagValue t2 c tag p2).1 := by
  unfold parseTagValue
  dsimp only
  split_ifs
  · rfl
  · rw [captureUntil_fst_eq t1 t2 c ltSlashL p1 p2 h]

theorem parseTagValue_snd_pos_eq (t1 t2 : Bool) (c : Content) (tag : IParsedTag)
    (p1 p2 : Position) (h : p1.pos = p2.pos) (hp : p1.pos ≤ c.length) :
    (parseTagValue t1 c tag p1).2.pos = (parseTagValue t2 c tag p2).2.pos := by
  unfold parseTagValue
  dsimp only
  split_ifs
  · exact h
  · rw [captureUntil_snd, captureUntil_snd]
    exact advanceUntil_pos_eq t1 t2 c gtL _ _
      (advanceUntil_pos_eq t1 t2 c ltSlashL p1 p2 h hp)
      (advanceUntil_le t1 c ltSlashL p1 hp)

theorem parseTagValue_snd_le (t : Bool) (c : Content) (tag : IParsedTag)
    (p : Position) (hp : p.pos ≤ c.length) :
    (parseTagValue t c tag p).2.pos ≤ c.length := by
  unfold parseTagValue
  dsimp only
  split_ifs
  · exact hp
  · rw [captureUntil_snd]
    exact advanceUntil_le t c gtL _ (advanceUntil_le t c ltSlashL p hp)

/-- Bisimulation between the two tracking modes: running the driving loop with
any two tracking settings from positions with equal offsets produces the same
outcome up to the line/column bookkeeping — the same parse error, or the same
final parser state. -/
theorem runLoopSt_bisim (c : Content) :
    ∀ (fuel : Nat) (t1 t2 : Bool) (p1 p2 : Position) (st : PST),
      p1.pos = p2.pos → p1.pos ≤ c.length →
      Option.map (Except.map (fun x : Position × PST => x.2)) (runLoopSt t1 c fuel p1 st) =
      Option.map (Except.map (fun x : Position × PST => x.2)) (runLoopSt t2 c fuel p2 st) := by
  intro fuel
  induction fuel with
  | zero => intro t1 t2 p1 p2 st _ _; rfl
  | succ k ih =>
    intro t1 t2 p1 p2 st hpos hle
    by_cases h1 : p1.pos < c.length
    case neg =>
      rw [runLoopSt_eof t1 c (k + 1) p1 st (by omega) (by omega),
        runLoopSt_eof t2 c (k + 1) p2 st (by omega) (by omega)]
      rfl
    case pos =>
      simp only [runLoopSt]
      rw [if_pos h1, if_pos (show p2.pos < c.length from by omega)]
      set q1 := skipWhitespace t1 c p1 with hq1def
      set q2 := skipWhitespace t2 c p2 with hq2def
      have hq : q1.pos = q2.pos := by
        rw [hq1def, hq2def]; exact skipWS_pos_eq t1 t2 c p1 p2 hpos
      have hqle : q1.pos ≤ c.length := by
        rw [hq1def]; exact skipWS_le t1 c p1 hle
      by_cases h2 : c.length ≤ q1.pos
      · rw [if_pos h2, if_pos (by omega)]
        rfl
      · rw [if_neg h2, if_neg (show ¬c.length ≤ q2.pos from by omega)]
        have hch : charAt c q1.pos = charAt c q2.pos := by rw [hq]
        have hr1 : (advancePosBy t1 c q1 1).pos = q1.pos + 1 := advancePosBy_pos t1 c q1 1
        have hr2 : (advancePosBy t2 c q2 1).pos = q2.pos + 1 := advancePosBy_pos t2 c q2 1
        rw [hch, hr1, hr2]
        by_cases h3 : charAt c q2.pos ≠ '<'
        · rw [if_pos h3, if_pos h3, hq]
        · rw [if_neg h3, if_neg h3]
          by_cases h4 : c.length ≤ q2.pos + 1
          · rw [if_pos (by omega), if_pos h4, hq]
          · rw [if_neg (by omega), if_neg h4, hq]
            have hsle : q2.pos + 1 + 1 ≤ c.length := by omega
            by_cases h5 : charAt c (q2.pos + 1) = '?'
            · rw [if_pos h5, if_pos h5]
              refine ih t1 t2 _ _ st ?_ ?_
              · refine advanceUntil_pos_eq t1 t2 c qgtL _ _ ?_ ?_
                · rw [advancePosBy_pos t1 c (advancePosBy t1 c q1 1) 1,
                    advancePosBy_pos t2 c (advancePosBy t2 c q2 1) 1, hr1, hr2, hq]
                · rw [advancePosBy_pos t1 c (advancePosBy t1 c q1 1) 1, hr1, hq]
                  omega
              · refine advanceUntil_le t1 c qgtL _ ?_
                rw [advancePosBy_pos t1 c (advancePosBy t1 c q1 1) 1, hr1, hq]
                omega
            · rw [if_neg h5, if_neg h5]
              by_cases h6 : charAt c (q2.pos + 1) = '!'
              · rw [if_pos h6, if_pos h6]
                have hsp : (advancePosBy t1 c (advancePosBy t1 c q1 1) 1).pos =
                    (advancePosBy t2 c (advancePosBy t2 c q2 1) 1).pos := by
                  rw [advancePosBy_pos t1 c (advancePosBy t1 c q1 1) 1,
                    advancePosBy_pos t2 c (advancePosBy t2 c q2 1) 1, hr1, hr2, hq]
                have hsple : (advancePosBy t1 c (advancePosBy t1 c q1 1) 1).pos ≤
                    c.length := by
                  rw [advancePosBy_pos t1 c (advancePosBy t1 c q1 1) 1, hr1, hq]
                  omega
                have hmf : (advanceIfStartsWith t1 c ddL
                    (advancePosBy t1 c (advancePosBy t1 c q1 1) 1)).1 =
                    (advanceIfStartsWith t2 c ddL
                    (advancePosBy t2 c (advancePosBy t2 c q2 1) 1)).1 :=
                  aisw_fst_eq t1 t2 c ddL _ _ hsp
                have hmp : (advanceIfStartsWith t1 c ddL
                    (advancePosBy t1 c (advancePosBy t1 c q1 1) 1)).2.pos =
                    (advanceIfStartsWith t2 c ddL
                    (advancePosBy t2 c (advancePosBy t2 c q2 1) 1)).2.pos :=
                  aisw_snd_pos_eq t1 t2 c ddL _ _ hsp
                have hmple : (advanceIfStartsWith t1 c ddL
                    (advancePosBy t1 c (advancePosBy t1 c q1 1) 1)).2.pos ≤ c.length :=
                  aisw_snd_le t1 c ddL _ hsple
                rw [hmf]
                by_cases h7 : (advanceIfStartsWith t2 c ddL
                    (advancePosBy t2 c (advancePosBy t2 c q2 1) 1)).1 = true
                · rw [if_pos h7, if_pos h7]
                  exact ih t1 t2 _ _ st
                    (advanceUntil_pos_eq t1 t2 c ddgtL _ _ hmp hmple)
                    (advanceUntil_le t1 c ddgtL _ hmple)
                · rw [if_neg h7, if_neg h7]
                  exact ih t1 t2 _ _ st
                    (advanceUntil_pos_eq t1 t2 c gtL _ _ hmp hmple)
                    (advanceUntil_le t1 c gtL _ hmple)
              · rw [if_neg h6, if_neg h6]
                by_cases h8 : charAt c (q2.pos + 1) = '/'
                · rw [if_pos h8, if_pos h8]
                  have hwp : (skipWhitespace t1 c
                      (advancePosBy t1 c (advancePosBy t1 c q1 1) 1)).pos =
                      (skipWhitespace t2 c
                      (advancePosBy t2 c (advancePosBy t2 c q2 1) 1)).pos := by
                    refine skipWS_pos_eq t1 t2 c _ _ ?_
                    rw [advancePosBy_pos t1 c (advancePosBy t1 c q1 1) 1,
                      advancePosBy_pos t2 c (advancePosBy t2 c q2 1) 1, hr1, hr2, hq]
                  have hwle : (skipWhitespace t1 c
                      (advancePosBy t1 c (advancePosBy t1 c q1 1) 1)).pos ≤ c.length := by
                    refine skipWS_le t1 c _ ?_
                    rw [advancePosBy_pos t1 c (advancePosBy t1 c q1 1) 1, hr1, hq]
                    omega
                  have hPf := aisw_fst_eq t1 t2 c plistL _ _ hwp
                  have hPp := aisw_snd_pos_eq t1 t2 c plistL _ _ hwp
                  have hPle := aisw_snd_le t1 c plistL _ hwle
                  rw [hPf]
                  by_cases h9 : (advanceIfStartsWith t2 c plistL
                      (skipWhitespace t2 c
                      (advancePosBy t2 c (advancePosBy t2 c q2 1) 1))).1 = true
                  · rw [if_pos h9, if_pos h9]
                    exact ih t1 t2 _ _ st
                      (advanceUntil_pos_eq t1 t2 c gtL _ _ hPp hPle)
                      (advanceUntil_le t1 c gtL _ hPle)
                  · rw [if_neg h9, if_neg h9]
                    have hDf := aisw_fst_eq t1 t2 c dictL _ _ hPp
                    have hDp := aisw_snd_pos_eq t1 t2 c dictL _ _ hPp
                    have hDle := aisw_snd_le t1 c dictL _ hPle
                    rw [hDf]
                    by_cases h10 : (advanceIfStartsWith t2 c dictL
                        (advanceIfStartsWith t2 c plistL
                        (skipWhitespace t2 c
                        (advancePosBy t2 c (advancePosBy t2 c q2 1) 1))).2).1 = true
                    · rw [if_pos h10, if_pos h10]
                      have hup := advanceUntil_pos_eq t1 t2 c gtL _ _ hDp hDle
                      have hule := advanceUntil_le t1 c gtL _ hDle
                      cases hLD : leaveDictOp st with
                      | error m =>
                        dsimp only
                        rw [hup]
                      | ok st1 =>
                        dsimp only
                        exact ih t1 t2 _ _ st1 hup hule
                    · rw [if_neg h10, if_neg h10]
                      have hAf := aisw_fst_eq t1 t2 c arrayL _ _ hDp
                      have hAp := aisw_snd_pos_eq t1 t2 c arrayL _ _ hDp
                      have hAle := aisw_snd_le t1 c arrayL _ hDle
                      rw [hAf]
                      by_cases h11 : (advanceIfStartsWith t2 c arrayL
                          (advanceIfStartsWith t2 c dictL
                          (advanceIfStartsWith t2 c plistL
                          (skipWhitespace t2 c
                          (advancePosBy t2 c (advancePosBy t2 c q2 1) 1))).2).2).1 = true
                      · rw [if_pos h11, if_pos h11]
                        have hup := advanceUntil_pos_eq t1 t2 c gtL _ _ hAp hAle
                        have hule := advanceUntil_le t1 c gtL _ hAle
                        cases hLA : leaveArrayOp st with
                        | error m =>
                          dsimp only
                          rw [hup]
                        | ok st1 =>
                          dsimp only
                          exact ih t1 t2 _ _ st1 hup hule
                      · rw [if_neg h11, if_neg h11, hAp]
                · rw [if_neg h8, if_neg h8]
                  have hrp : (advancePosBy t1 c q1 1).pos =
                      (advancePosBy t2 c q2 1).pos := by rw [hr1, hr2, hq]
                  have hrle : (advancePosBy t1 c q1 1).pos ≤ c.length := by
                    rw [hr1, hq]; omega
                  have htag : (parseOpenTag t1 c (advancePosBy t1 c q1 1)).1 =
                      (parseOpenTag t2 c (advancePosBy t2 c q2 1)).1 :=
                    parseOpenTag_fst_eq t1 t2 c _ _ hrp
                  have htpp : (parseOpenTag t1 c (advancePosBy t1 c q1 1)).2.pos =
                      (parseOpenTag t2 c (advancePosBy t2 c q2 1)).2.pos := by
                    rw [parseOpenTag_snd, parseOpenTag_snd]
                    exact advanceUntil_pos_eq t1 t2 c gtL _ _ hrp hrle
                  have htple : (parseOpenTag t1 c (advancePosBy t1 c q1 1)).2.pos ≤
                      c.length := by
                    rw [parseOpenTag_snd]
                    exact advanceUntil_le t1 c gtL _ hrle
                  rw [htag]
                  by_cases hT1 : (parseOpenTag t2 c (advancePosBy t2 c q2 1)).1.name =
                      dictL ∨
                      (parseOpenTag t2 c (advancePosBy t2 c q2 1)).1.name = arrayL
                  · rw [if_pos hT1, if_pos hT1]
                    cases hco : containerOp
                        (parseOpenTag t2 c (advancePosBy t2 c q2 1)).1.name
                        (parseOpenTag t2 c (advancePosBy t2 c q2 1)).1.isClosed st with
                    | error m =>
                      dsimp only
                      rw [htpp]
                    | ok st1 =>
                      dsimp only
                      exact ih t1 t2 _ _ st1 htpp htple
                  · rw [if_neg hT1, if_neg hT1]
                    by_cases hT2 : isLeafName
                        (parseOpenTag t2 c (advancePosBy t2 c q2 1)).1.name = true
                    · rw [if_pos hT2, if_pos hT2]
                      have hvp1 : (parseTagValue t1 c
                          (parseOpenTag t2 c (advancePosBy t2 c q2 1)).1
                          (parseOpenTag t1 c (advancePosBy t1 c q1 1)).2).1 =
                          (parseTagValue t2 c
                          (parseOpenTag t2 c (advancePosBy t2 c q2 1)).1
                          (parseOpenTag t2 c (advancePosBy t2 c q2 1)).2).1 :=
                        parseTagValue_fst_eq t1 t2 c _ _ _ htpp
                      have hvpp : (parseTagValue t1 c
                          (parseOpenTag t2 c (advancePosBy t2 c q2 1)).1
                          (parseOpenTag t1 c (advancePosBy t1 c q1 1)).2).2.pos =
                          (parseTagValue t2 c
                          (parseOpenTag t2 c (advancePosBy t2 c q2 1)).1
                          (parseOpenTag t2 c (advancePosBy t2 c q2 1)).2).2.pos :=
                        parseTagValue_snd_pos_eq t1 t2 c _ _ _ htpp htple
                      have hvple : (parseTagValue t1 c
                          (parseOpenTag t2 c (advancePosBy t2 c q2 1)).1
                          (parseOpenTag t1 c (advancePosBy t1 c q1 1)).2).2.pos ≤
                          c.length :=
                        parseTagValue_snd_le t1 c _ _ htple
                      rw [hvp1]
                      cases hesc : (parseTagValue t2 c
                          (parseOpenTag t2 c (advancePosBy t2 c q2 1)).1
                          (parseOpenTag t2 c (advancePosBy t2 c q2 1)).2).1 with
                      | error m =>
                        dsimp only
                        rw [hvpp]
                      | ok v =>
                        dsimp only
                        cases hlo : leafOp
                            (parseOpenTag t2 c (advancePosBy t2 c q2 1)).1.name v st with
                        | error m =>
                          dsimp only
                          rw [hvpp]
                        | ok st1 =>
                          dsimp only
                          exact ih t1 t2 _ _ st1 hvpp hvple
                    · rw [if_neg hT2, if_neg hT2]
                      by_cases hT3 : leadsWith plistL
                          (parseOpenTag t2 c (advancePosBy t2 c q2 1)).1.name = true
                      · rw [if_pos hT3, if_pos hT3]
                        exact ih t1 t2 _ _ st htpp htple
                      · rw [if_neg hT3, if_neg hT3, htpp]

/-! ### Claim theorem: location tracking is observationally inert (C8) -/

/-- Claim C8: enabling or disabling location tracking does not change the
parse result — for every input the two modes return equal values and fail
with the same error. -/
theorem claim_C8_location_tracking_inert :
    ∀ (c : Content) (t1 t2 : Bool), parseFP t1 c = parseFP t2 c := by
  intro c t1 t2
  have hle : (initPos c).pos ≤ c.length := by
    unfold initPos
    split_ifs with hb
    · show (1 : Nat) ≤ c.length
      have := hb.1
      omega
    · show (0 : Nat) ≤ c.length
      omega
  have h := runLoopSt_bisim c (c.length + 1) t1 t2 (initPos c) (initPos c) initPST rfl hle
  unfold parseFP
  cases e1 : runLoopSt t1 c (c.length + 1) (initPos c) initPST with
  | none =>
    cases e2 : runLoopSt t2 c (c.length + 1) (initPos c) initPST with
    | none => rfl
    | some v2 => rw [e1, e2] at h; exact absurd h (by simp)
  | some v1 =>
    cases e2 : runLoopSt t2 c (c.length + 1) (initPos c) initPST with
    | none => rw [e1, e2] at h; exact absurd h (by simp)
    | some v2 =>
      rw [e1, e2] at h
      simp only [Option.map_some', Option.some.injEq] at h ⊢
      cases v1 with
      | error err1 =>
        cases v2 with
        | error err2 =>
          simp only [Except.map, Except.error.injEq] at h
          rw [h]
        | ok x2 => simp [Except.map] at h
      | ok x1 =>
        cases v2 with
        | error err2 => simp [Except.map] at h
        | ok x2 =>
          simp only [Except.map, Except.ok.injEq] at h
          show Except.ok (materialize x1.2.cur) = Except.ok (materialize x2.2.cur)
          rw [h]

end FastPlist
